import Mathlib

/-!
idealvm: a shallow embedding of the CPU core (`src/cpu.cpp`, `src/defs.hpp`)

Machine integers are natural numbers reduced explicitly modulo `2^w` at every
place where the C++ type truncates.  A C++ `throw Interrupt(..)` is the
`Res.interrupt` outcome and carries the state reached at the throw point, the
`std::runtime_error` of a double fault is `Res.doubleFault`, and every
operation whose behaviour the C++ standard leaves undefined (an unchecked
`std::vector::operator[]` outside the array, a shift by 64 or more, a signed
multiplication or division that overflows) is `Res.undefined`.
-/

namespace IdealVM

/-! ## Constants of `defs.hpp` -/

namespace EF
def CARRY : Nat := 0x1
def OVERFLOW : Nat := 0x2
def ZERO : Nat := 0x4
def NEGATIVE : Nat := 0x8
def PROTECTED_ENABLE : Nat := 0x8000000000000000
def PAGING_ENABLE : Nat := 0x4000000000000000
def INTERRUPT_ENABLE : Nat := 0x2000000000000000
end EF

namespace PE
def FRAME : Nat := 0xFFFFF000
def OCCUPIED : Nat := 0x1
def PROTECTED : Nat := 0x2
def MODIFIED : Nat := 0x4
def WRITABLE : Nat := 0x8
def EXECUTABLE : Nat := 0x10
def ACCESSED : Nat := 0x20
end PE

namespace Reg
def A : Fin 16 := 0
def B : Fin 16 := 1
def C : Fin 16 := 2
def D : Fin 16 := 3
def E : Fin 16 := 4
def F : Fin 16 := 5
def G : Fin 16 := 6
def H : Fin 16 := 7
def I : Fin 16 := 8
def J : Fin 16 := 9
def K : Fin 16 := 10
def X : Fin 16 := 11
def Y : Fin 16 := 12
def SP : Fin 16 := 13
def BP : Fin 16 := 14
def Z : Fin 16 := 15
end Reg

namespace ProtectedReg
def EFLAGS : Fin 16 := 0
def USP : Fin 16 := 1
def PSP : Fin 16 := 2
def IJT : Fin 16 := 3
def RPT : Fin 16 := 4
end ProtectedReg

namespace Op
def MOV : Nat := 0
def GEF : Nat := 1
def LB : Nat := 2
def LBU : Nat := 3
def LH : Nat := 4
def LHU : Nat := 5
def LW : Nat := 6
def LWU : Nat := 7
def LD : Nat := 8
def SB : Nat := 9
def SH : Nat := 10
def SW : Nat := 11
def SD : Nat := 12
def PUSH : Nat := 13
def POP : Nat := 14
def JMP : Nat := 15
def JLT : Nat := 16
def JGT : Nat := 17
def JZR : Nat := 18
def JIF : Nat := 19
def AND : Nat := 20
def OR : Nat := 21
def XOR : Nat := 22
def SHL : Nat := 23
def SHR : Nat := 24
def ADD : Nat := 25
def SUB : Nat := 26
def MUL : Nat := 27
def SMUL : Nat := 28
def DIV : Nat := 29
def SDIV : Nat := 30
def SSHR : Nat := 31
def INT : Nat := 32
def PMOV : Nat := 33
def IRET : Nat := 34
end Op

namespace IntCode
def FAULT_START : Nat := 0x0
def PAGE_FAULT : Nat := 0x0
def INSTRUCTION_FAULT : Nat := 0x1
def ALU_FAULT : Nat := 0x2
def FAULT_END : Nat := 0x1F
def HW_INTERRUPT_START : Nat := 0x20
def TIMER_CLOCK : Nat := 0x20
def HW_INTERRUPT_END : Nat := 0x9F
def SOFTWARE_INTERUPT_START : Nat := 0xA0
def SOFTWARE_INTERUPT_END : Nat := 0xFF
end IntCode

/-- The constant `msbMask` of `cpu.cpp`. -/
def msbMask : Nat := 0x8000000000000000

/-- The value of `UINT64_MAX`. -/
def UINT64_MAX : Nat := 0xFFFFFFFFFFFFFFFF

/-- Conversion of a signed C++ integer to `uint64_t` (reduction modulo `2^64`). -/
def toU64 (i : Int) : Nat := (i % 2 ^ 64).toNat

/-- The value of `static_cast<int64_t>(x)` for a `uint64_t` `x`. -/
def toS64 (x : Nat) : Int := if x < 2 ^ 63 then (x : Int) else (x : Int) - 2 ^ 64

/-! ## Data model -/

/-- The struct `Inst`: a decoded instruction.  `opcode` is a `uint8_t` and
`offset` an `int16_t`; `r0` and `r1` only ever index the 16-entry register
files and are produced by `decodeBinRegInst` from 4-bit fields. -/
structure Inst where
  opcode : Nat
  r0 : Fin 16
  r1 : Fin 16
  offset : Int

/-- The struct `Interrupt`, thrown as an exception. -/
structure Interrupt where
  code : Nat
  info : Nat

/-- The struct `CPU`, with the fields of `CPU::State` inlined.  `memory` is the
byte vector: `memSize` is its length and `memory i` the byte at index `i`. -/
structure CPU where
  registers : Fin 16 → Nat
  protectedReg : Fin 16 → Nat
  ip : Nat
  memSize : Nat
  memory : Nat → Nat
  nip : Nat
  nipSet : Bool
  intSet : Bool
  handlingInterrupt : Bool

/-- The state built by `CPU(State{}, memSize)`: every register and flag zero,
memory value-initialised. -/
def CPU.reset (memSize : Nat) : CPU :=
  { registers := fun _ => 0, protectedReg := fun _ => 0, ip := 0,
    memSize := memSize, memory := fun _ => 0,
    nip := 0, nipSet := false, intSet := false, handlingInterrupt := false }

/-- Assignment `st.registers[r] = v`. -/
def CPU.setReg (c : CPU) (r : Fin 16) (v : Nat) : CPU :=
  { c with registers := Function.update c.registers r v }

/-- Assignment `st.protectedReg[r] = v`. -/
def CPU.setProt (c : CPU) (r : Fin 16) (v : Nat) : CPU :=
  { c with protectedReg := Function.update c.protectedReg r v }

/-- Assignment `memory[i] = v`. -/
def CPU.setMem (c : CPU) (i : Nat) (v : Nat) : CPU :=
  { c with memory := Function.update c.memory i v }

/-- The current value of `st.protectedReg[EFLAGS]`. -/
def CPU.eflags (c : CPU) : Nat := c.protectedReg ProtectedReg.EFLAGS

/-- The test `st.protectedReg[EFLAGS] & mask` used as a condition. -/
def CPU.flagSet (c : CPU) (mask : Nat) : Bool := decide (c.eflags &&& mask ≠ 0)

/-- The outcome of running a member function of `CPU`. -/
inductive Res (α : Type) where
  /-- normal return, with the returned value and the state -/
  | ok : α → CPU → Res α
  /-- an `Interrupt` was thrown; the state is the one at the throw -/
  | interrupt : Interrupt → CPU → Res α
  /-- `std::runtime_error("Double fault")` was thrown -/
  | doubleFault : CPU → Res α
  /-- undefined behaviour was reached -/
  | undefined : Res α

/-- Sequencing: run `f` on a normal return, propagate everything else. -/
def Res.bind {α β : Type} (r : Res α) (f : α → CPU → Res β) : Res β :=
  match r with
  | .ok a c => f a c
  | .interrupt i c => .interrupt i c
  | .doubleFault c => .doubleFault c
  | .undefined => .undefined

/-- Lift a memory helper that can only fail by leaving the array. -/
def Res.ofOption {α : Type} (o : Option α) (c : CPU) : Res α :=
  match o with
  | some a => .ok a c
  | none => .undefined

/-- Lift a `void` memory helper that can only fail by leaving the array. -/
def Res.ofState (o : Option CPU) : Res Unit :=
  match o with
  | some c => .ok () c
  | none => .undefined

/-- The state of a normal return. -/
def Res.state? {α : Type} : Res α → Option CPU
  | .ok _ c => some c
  | _ => none

/-- The state of a normal return, `d` for every other outcome. -/
def Res.stateD {α : Type} (r : Res α) (d : CPU) : CPU :=
  match r with
  | .ok _ c => c
  | _ => d

/-- Whether undefined behaviour was reached. -/
def Res.isUndefined {α : Type} : Res α → Bool
  | .undefined => true
  | _ => false

/-- Whether the double fault was thrown. -/
def Res.isDoubleFault {α : Type} : Res α → Bool
  | .doubleFault _ => true
  | _ => false

/-- The code and info of a thrown `Interrupt`. -/
def Res.raised? {α : Type} : Res α → Option (Nat × Nat)
  | .interrupt i _ => some (i.code, i.info)
  | _ => none

/-- The value of a normal return. -/
def Res.value? {α : Type} : Res α → Option α
  | .ok a _ => some a
  | _ => none

/-! ## Memory helpers -/

/-- The loop of `CPU::mLoad`: `n` is the number of iterations left, so the loop
variable `i` is `n - 1`; `ret` is a `uint64_t`. -/
def mLoadLoop (c : CPU) (physicalAddress : Nat) : Nat → Nat → Option Nat
  | 0, ret => some ret
  | i + 1, ret =>
    if (physicalAddress + i) % 2 ^ 32 < c.memSize then
      mLoadLoop c physicalAddress i
        (((ret ||| c.memory ((physicalAddress + i) % 2 ^ 32)) <<< 8) % 2 ^ 64)
    else none

/-- `CPU::mLoad`; the argument is converted to the `uint32_t` parameter. -/
def mLoad (c : CPU) (physicalAddress : Nat) (nBytes : Nat) : Option Nat :=
  mLoadLoop c (physicalAddress % 2 ^ 32) nBytes 0

/-- The loop of `CPU::mStore`: `i` is the loop variable and `n` the number of
iterations left. -/
def mStoreLoop (physicalAddress : Nat) : Nat → Nat → Nat → CPU → Option CPU
  | 0, _, _, c => some c
  | n + 1, i, data, c =>
    if (physicalAddress + i) % 2 ^ 32 < c.memSize then
      mStoreLoop physicalAddress n (i + 1) (data >>> 8)
        (c.setMem ((physicalAddress + i) % 2 ^ 32) (data % 256))
    else none

/-- `CPU::mStore`; the arguments are converted to the `uint32_t` and `uint64_t`
parameters. -/
def mStore (c : CPU) (physicalAddress : Nat) (data : Nat) (nBytes : Nat) : Option CPU :=
  mStoreLoop (physicalAddress % 2 ^ 32) nBytes 0 (data % 2 ^ 64) c

/-! ## Address translation -/

/-- The lambda `getPageMap` of `CPU::resolveAddress`. -/
def getPageMap (address : Nat) (write jump : Bool) (entry : Nat) (c : CPU) : Res Nat :=
  let errorType : Nat :=
    if entry &&& PE.OCCUPIED = 0 then PE.OCCUPIED
    else if entry &&& PE.PROTECTED ≠ 0 ∧ c.flagSet EF.PROTECTED_ENABLE then PE.PROTECTED
    else if write ∧ entry &&& PE.WRITABLE = 0 ∧ c.flagSet EF.PROTECTED_ENABLE then PE.WRITABLE
    else if jump ∧ entry &&& PE.EXECUTABLE = 0 ∧ c.flagSet EF.PROTECTED_ENABLE then
      PE.EXECUTABLE
    else 0
  if errorType ≠ 0 then
    .interrupt ⟨IntCode.PAGE_FAULT, (address &&& 0xFFFFFFFF) ||| (errorType <<< 32)⟩ c
  else .ok (entry &&& PE.FRAME) c

/-- `CPU::resolveAddress`; the argument is converted to the `uint32_t`
parameter. -/
def resolveAddress (addr : Nat) (write jump : Bool) (c : CPU) : Res Nat :=
  let address := addr % 2 ^ 32
  if ¬ c.flagSet EF.PAGING_ENABLE then .ok address c
  else
    let rootIndex := ((address &&& 0xFFC00000) >>> 22) % 2 ^ 16
    let pageIndex := ((address &&& 0x3FF000) >>> 12) % 2 ^ 16
    let offset := (address &&& 0xFFF) % 2 ^ 16
    let rootAddr := (c.protectedReg ProtectedReg.RPT + rootIndex) % 2 ^ 64
    (Res.ofOption (mLoad c rootAddr 4) c).bind fun v c =>
      let rootEntry := v % 2 ^ 32
      (getPageMap address write jump rootEntry c).bind fun pageTable c =>
        let pageAddr := (pageTable + pageIndex) % 2 ^ 32
        (Res.ofOption (mLoad c pageAddr 4) c).bind fun v c =>
          let tableEntry := v % 2 ^ 32
          (getPageMap address write jump tableEntry c).bind fun physicalFrame c =>
            -- `rootEntry |= PE::ACCESSED` updates a local that is never read again
            let tableEntry := tableEntry ||| PE.ACCESSED
            let tableEntry := if write then tableEntry ||| PE.MODIFIED else tableEntry
            match mStore c rootAddr tableEntry 4 with
            | none => .undefined
            | some c =>
              match mStore c pageAddr tableEntry 4 with
              | none => .undefined
              | some c => .ok ((physicalFrame + offset) % 2 ^ 32) c

/-! ## Fetch and decode -/

/-- The loop of `CPU::fetchInstruction`: `n` is the number of iterations left
(the loop variable `i` is `n - 1`); `ret` is a `uint32_t`. -/
def fetchLoop (c : CPU) (physicalAddress : Nat) : Nat → Nat → Option Nat
  | 0, ret => some ret
  | i + 1, ret =>
    if (physicalAddress + i) % 2 ^ 32 < c.memSize then
      fetchLoop c physicalAddress i
        (((ret ||| c.memory ((physicalAddress + i) % 2 ^ 32)) <<< 8) % 2 ^ 32)
    else none

/-- `CPU::fetchInstruction`: the loop starts at `i = 4` and runs while
`i >= 0`, five iterations. -/
def fetchInstruction (c : CPU) : Res Nat :=
  (resolveAddress c.ip false false c).bind fun physicalAddress c =>
    Res.ofOption (fetchLoop c physicalAddress 5 0) c

/-- `CPU::decodeBinRegInst`, on a `uint32_t` word. -/
def decodeBinRegInst (inst : Nat) : Inst :=
  { opcode := (inst >>> 24) % 2 ^ 8
    r0 := Fin.ofNat (((inst &&& 0x00F00000) >>> 20) % 2 ^ 8)
    r1 := Fin.ofNat (((inst &&& 0x000F0000) >>> 16) % 2 ^ 8)
    offset := if inst % 2 ^ 16 < 2 ^ 15 then ((inst % 2 ^ 16 : Nat) : Int)
              else ((inst % 2 ^ 16 : Nat) : Int) - 2 ^ 16 }

/-! ## Execution units -/

/-- The lambda `signExtend` of `CPU::executeLoad`. -/
def signExtend (val : Nat) (nBytes : Nat) : Option Nat :=
  if toS64 val < 0 then
    if 8 * nBytes < 64 then some (val ||| (UINT64_MAX <<< (8 * nBytes)) % 2 ^ 64) else none
  else some val

/-- `CPU::executeLoad`. -/
def executeLoad (inst : Inst) (c : CPU) : Res Unit :=
  let logicalAddress := (c.registers inst.r1 + toU64 inst.offset) % 2 ^ 64 % 2 ^ 32
  (resolveAddress logicalAddress false false c).bind fun physicalAddress c =>
    let hasSign : Bool := decide (((inst.opcode : Int) - (Op.LB : Int)).tmod 2 = 1)
    let nBytes : Nat :=
      if inst.opcode ≤ Op.LBU then 1
      else if inst.opcode ≤ Op.LHU then 2
      else if inst.opcode ≤ Op.LWU then 4
      else 8
    let result : Option Nat :=
      if hasSign then (mLoad c physicalAddress nBytes).bind fun v => signExtend v nBytes
      else mLoad c physicalAddress nBytes
    match result with
    | none => .undefined
    | some result => .ok () (c.setReg inst.r0 result)

/-- `CPU::executeStore`. -/
def executeStore (inst : Inst) (c : CPU) : Res Unit :=
  let logicalAddress := (c.registers inst.r1 + toU64 inst.offset) % 2 ^ 64 % 2 ^ 32
  (resolveAddress logicalAddress false false c).bind fun physicalAddress c =>
    if inst.opcode = Op.SB then Res.ofState (mStore c physicalAddress (c.registers inst.r0) 1)
    else if inst.opcode = Op.SH then
      Res.ofState (mStore c physicalAddress (c.registers inst.r0) 2)
    else if inst.opcode = Op.SW then
      Res.ofState (mStore c physicalAddress (c.registers inst.r0) 4)
    else if inst.opcode = Op.SD then
      Res.ofState (mStore c physicalAddress (c.registers inst.r0) 8)
    else .ok () c

/-- `CPU::stackPush`. -/
def stackPush (value : Nat) (c : CPU) : Res Unit :=
  let c := c.setReg Reg.SP ((c.registers Reg.SP + 2 ^ 64 - 8) % 2 ^ 64)
  Res.ofState (mStore c (c.registers Reg.SP) value 8)

/-- `CPU::stackPop`. -/
def stackPop (c : CPU) : Res Nat :=
  (Res.ofOption (mLoad c (c.registers Reg.SP) 8) c).bind fun ret c =>
    .ok ret (c.setReg Reg.SP ((c.registers Reg.SP + 8) % 2 ^ 64))

/-- `CPU::executeStack`. -/
def executeStack (inst : Inst) (c : CPU) : Res Unit :=
  if inst.opcode = Op.PUSH then
    stackPush ((c.registers inst.r1 + toU64 inst.offset) % 2 ^ 64) c
  else if inst.opcode = Op.POP then
    (stackPop c).bind fun v c => .ok () (c.setReg inst.r0 v)
  else .ok () c

/-- `CPU::executeConditional`; an opcode outside the `switch` leaves `nipSet`
as it was. -/
def executeConditional (inst : Inst) (c : CPU) : Res Unit :=
  let c := { c with nip := (c.registers inst.r1 + toU64 inst.offset) % 2 ^ 64 }
  let negative := c.flagSet EF.NEGATIVE
  let zero := c.flagSet EF.ZERO
  if inst.opcode = Op.JMP then .ok () { c with nipSet := true }
  else if inst.opcode = Op.JGT then .ok () { c with nipSet := !(zero || negative) }
  else if inst.opcode = Op.JLT then .ok () { c with nipSet := negative }
  else if inst.opcode = Op.JZR then .ok () { c with nipSet := zero }
  else if inst.opcode = Op.JIF then .ok () { c with nipSet := decide (c.registers inst.r0 ≠ 0) }
  else .ok () c

/-- `CPU::didOverflow`. -/
def didOverflow (a b res : Nat) : Bool :=
  let aUb := a &&& msbMask
  let bUb := b &&& msbMask
  let rUb := res &&& msbMask
  if aUb = bUb then decide (aUb ≠ rUb) else false

/-- A `uint64_t` left shift; the count must be below the width. -/
def shl64 (a n : Nat) : Option Nat := if n < 64 then some ((a <<< n) % 2 ^ 64) else none

/-- A `uint64_t` right shift; the count must be below the width. -/
def shr64 (a n : Nat) : Option Nat := if n < 64 then some (a >>> n) else none

/-- The statement `st.protectedReg[EFLAGS] |= mask`. -/
def CPU.orFlags (c : CPU) (mask : Nat) : CPU :=
  c.setProt ProtectedReg.EFLAGS (c.eflags ||| mask)

/-- The statement `st.protectedReg[EFLAGS] &= mask`. -/
def CPU.andFlags (c : CPU) (mask : Nat) : CPU :=
  c.setProt ProtectedReg.EFLAGS (c.eflags &&& mask)

/-- The `switch` of `CPU::executeBinaryRegOp`: the value left in `result` and
the state after the selected case (`result` keeps its initial 0 when no case
matches). -/
def binaryRegOpSwitch (inst : Inst) (o1 o2 : Nat) (c : CPU) : Res Nat :=
  let so1 := toS64 o1
  let so2 := toS64 o2
  if inst.opcode = Op.ADD then
    let result := (o1 + o2) % 2 ^ 64
    let c := if didOverflow o1 o2 result then c.orFlags EF.OVERFLOW else c
    let c := if result < o1 then c.orFlags EF.CARRY else c
    .ok result c
  else if inst.opcode = Op.SUB then
    let result := (o1 + 2 ^ 64 - o2) % 2 ^ 64
    let c := if didOverflow o1 o2 result then c.orFlags EF.OVERFLOW else c
    let c := if o2 > o1 then c.orFlags EF.CARRY else c
    .ok result c
  else if inst.opcode = Op.MUL then .ok ((o1 * o2) % 2 ^ 64) c
  else if inst.opcode = Op.SMUL then
    if -(2 ^ 63 : Int) ≤ so1 * so2 ∧ so1 * so2 < 2 ^ 63 then .ok (toU64 (so1 * so2)) c
    else .undefined
  else if inst.opcode = Op.DIV then
    if o2 = 0 then .interrupt ⟨IntCode.ALU_FAULT, 0x0⟩ c
    else .ok (o1 / o2) (c.setReg inst.r1 (o1 % o2))
  else if inst.opcode = Op.SDIV then
    if o2 = 0 then .interrupt ⟨IntCode.ALU_FAULT, 0x0⟩ c
    else if so1 = -(2 ^ 63 : Int) ∧ so2 = -1 then .undefined
    else .ok (toU64 (so1.tdiv so2)) (c.setReg inst.r1 (toU64 (so1.tmod so2)))
  else if inst.opcode = Op.SSHR then
    if o1 &&& msbMask ≠ 0 then
      match shr64 o1 o2, shl64 UINT64_MAX (max 64 ((64 + 2 ^ 64 - o2) % 2 ^ 64)) with
      | some lo, some hi => .ok (lo ||| hi) c
      | _, _ => .undefined
    else Res.ofOption (shr64 o1 o2) c
  else if inst.opcode = Op.AND then .ok (o1 &&& o2) c
  else if inst.opcode = Op.OR then .ok (o1 ||| o2) c
  else if inst.opcode = Op.XOR then .ok (o1 ^^^ o2) c
  else if inst.opcode = Op.SHL then Res.ofOption (shl64 o1 o2) c
  else if inst.opcode = Op.SHR then Res.ofOption (shr64 o1 o2) c
  else .ok 0 c

/-- `CPU::executeBinaryRegOp`. -/
def executeBinaryRegOp (inst : Inst) (c : CPU) : Res Unit :=
  let o1 := c.registers inst.r0
  let o2 := (c.registers inst.r1 + toU64 inst.offset) % 2 ^ 64
  let c := c.andFlags (EF.CARRY ||| EF.OVERFLOW)
  (binaryRegOpSwitch inst o1 o2 c).bind fun result c =>
    let c := if result = 0 then c.orFlags EF.ZERO else c
    let c := if result &&& msbMask ≠ 0 then c.orFlags EF.NEGATIVE else c
    .ok () (c.setReg inst.r0 result)

/-- `CPU::executePriviliged`. -/
def executePriviliged (inst : Inst) (c : CPU) : Res Unit :=
  if c.flagSet EF.PROTECTED_ENABLE then .interrupt ⟨IntCode.INSTRUCTION_FAULT, 0x3⟩ c
  else if inst.opcode = Op.PMOV then
    .ok () (c.setProt inst.r0 ((c.registers inst.r1 + toU64 inst.offset) % 2 ^ 64))
  else if inst.opcode = Op.IRET then
    (stackPop c).bind fun eflags c =>
      (stackPop c).bind fun rip c =>
        let c := { c with nipSet := true, nip := rip }
        let c := c.setProt ProtectedReg.PSP (c.registers Reg.SP)
        let c := c.setReg Reg.SP (c.protectedReg ProtectedReg.USP)
        let c := c.setProt ProtectedReg.EFLAGS eflags
        .ok () (c.orFlags (EF.PROTECTED_ENABLE ||| EF.INTERRUPT_ENABLE))
  else .ok () c

/-- `CPU::executeMisc`. -/
def executeMisc (inst : Inst) (c : CPU) : Res Unit :=
  if inst.opcode = Op.MOV then
    .ok () (c.setReg inst.r0 ((c.registers inst.r1 + toU64 inst.offset) % 2 ^ 64))
  else if inst.opcode = Op.GEF then .ok () (c.setReg inst.r0 c.eflags)
  else if inst.opcode = Op.INT then
    let code := (c.registers inst.r1 + toU64 inst.offset) % 2 ^ 64
    if code < IntCode.SOFTWARE_INTERUPT_START ∨ code > IntCode.SOFTWARE_INTERUPT_END then
      .interrupt ⟨IntCode.INSTRUCTION_FAULT, 0x03⟩ c
    else .interrupt ⟨code % 2 ^ 8, 0x0⟩ c
  else .ok () c

/-! ## Dispatch, interrupt entry and the clock -/

/-- `CPU::dispatchInstruction`. -/
def dispatchInstruction (inst : Nat) (c : CPU) : Res Unit :=
  let decoded := decodeBinRegInst inst
  if decoded.opcode ≥ Op.LB ∧ decoded.opcode ≤ Op.LD then executeLoad decoded c
  else if decoded.opcode ≥ Op.SB ∧ decoded.opcode ≤ Op.SD then executeStore decoded c
  else if decoded.opcode ≥ Op.AND ∧ decoded.opcode ≤ Op.SSHR then executeBinaryRegOp decoded c
  else if decoded.opcode ≥ Op.JMP ∧ decoded.opcode ≤ Op.JIF then executeConditional decoded c
  else if decoded.opcode ≥ Op.PMOV ∧ decoded.opcode ≤ Op.IRET then executePriviliged decoded c
  else if decoded.opcode ≤ Op.PMOV then executeMisc decoded c
  else .interrupt ⟨IntCode.INSTRUCTION_FAULT, 0x0⟩ c

/-- `CPU::handleInterrupt`. -/
def handleInterrupt (i : Interrupt) (c : CPU) : Res Unit :=
  if c.handlingInterrupt then .doubleFault c
  else
    let c := { c with handlingInterrupt := true }
    let eflags := c.eflags
    let rip := if i.code > IntCode.FAULT_END then (c.ip + 4) % 2 ^ 64 else c.ip
    let c := c.andFlags (UINT64_MAX ^^^ EF.PROTECTED_ENABLE)
    let c := c.andFlags (UINT64_MAX ^^^ EF.INTERRUPT_ENABLE)
    let c := c.setProt ProtectedReg.USP (c.registers Reg.SP)
    let c := c.setReg Reg.SP (c.protectedReg ProtectedReg.PSP)
    (stackPush rip c).bind fun _ c =>
      (stackPush eflags c).bind fun _ c =>
        let jumpTableEntry := (c.protectedReg ProtectedReg.IJT + i.code * 8) % 2 ^ 64
        (resolveAddress jumpTableEntry false false c).bind fun physicalAddress c =>
          (Res.ofOption (mLoad c physicalAddress 4) c).bind fun jumpAddress c =>
            .ok () { c with nipSet := true, nip := jumpAddress % 2 ^ 32 }

/-- `CPU::progressClock`.  An `Interrupt` thrown by the `try` block is handled;
one thrown by `handleInterrupt` itself leaves the function, as does the double
fault.  Nothing in the source throws `std::out_of_range` (every memory access
is an unchecked `operator[]`), so that handler has no case here. -/
def progressClock (c : CPU) : Res Unit :=
  let tried : Res Unit :=
    (fetchInstruction c).bind fun instruction c => dispatchInstruction instruction c
  let caught : Res Unit :=
    match tried with
    | .interrupt i c => handleInterrupt i c
    | r => r
  caught.bind fun _ c =>
    let c := if c.nipSet then { c with nipSet := false, ip := c.nip }
             else { c with ip := (c.ip + 4) % 2 ^ 64 }
    .ok () (c.setReg Reg.Z 0)

/-- The IP-commit step of `CPU::progressClock` (the `if(nipSet)` statement). -/
def commitIp (c : CPU) : CPU :=
  if c.nipSet then { c with nipSet := false, ip := c.nip }
  else { c with ip := (c.ip + 4) % 2 ^ 64 }

/-! ## Reference values used in the statements -/

/-- The little-endian value of the `n` bytes of `mem` starting at `a`:
byte `k` of the value is `mem (a + k)`. -/
def leValue (mem : Nat → Nat) (a : Nat) : Nat → Nat
  | 0 => 0
  | n + 1 => leValue mem a n + mem (a + n) * 256 ^ n

/-- The branch table of the specification (§4.8): `JMP` always; `JGT` iff
`ZERO` and `NEGATIVE` are both clear; `JLT` iff `NEGATIVE` is set; `JZR` iff
`ZERO` is set; `JIF` iff `registers[r0] != 0`. -/
def takenPerSpec (inst : Inst) (c : CPU) : Prop :=
  inst.opcode = Op.JMP ∨
  (inst.opcode = Op.JGT ∧ c.flagSet EF.ZERO = false ∧ c.flagSet EF.NEGATIVE = false) ∨
  (inst.opcode = Op.JLT ∧ c.flagSet EF.NEGATIVE = true) ∨
  (inst.opcode = Op.JZR ∧ c.flagSet EF.ZERO = true) ∨
  (inst.opcode = Op.JIF ∧ c.registers inst.r0 ≠ 0)

/-- The assignment `intSet = b` made by an external driver between ticks. -/
def CPU.withIntSet (c : CPU) (b : Bool) : CPU := { c with intSet := b }

/-- The same outcome with `f` applied to the state it carries. -/
def Res.mapState {α : Type} (f : CPU → CPU) : Res α → Res α
  | .ok a c => .ok a (f c)
  | .interrupt i c => .interrupt i (f c)
  | .doubleFault c => .doubleFault (f c)
  | .undefined => .undefined

/-! ## Concrete machine states used by the evaluation lemmas -/

/-- A 16-byte image whose first four bytes are `2A 00 0F 00`, the little-endian
storage of `0x000F002A` (`MOV A, Z+42`). -/
def movImage : Nat → Nat := fun a => if a = 0 then 0x2A else if a = 2 then 0x0F else 0

/-- The reset state over `movImage`. -/
def movCpu : CPU := { CPU.reset 16 with memory := movImage }

/-- A 16-byte image whose first bytes are `01 FF 00`: the fetch of `cpu.cpp`
assembles them into `0x00FF0100`, which decodes to `MOV Z, Z+0x100`. -/
def movZImage : Nat → Nat := fun a => if a = 0 then 0x01 else if a = 1 then 0xFF else 0

/-- The reset state over `movZImage`. -/
def movZCpu : CPU := { CPU.reset 16 with memory := movZImage }

/-- The reset state over a 512-byte memory that is zero except for byte `b` at
address `a`. -/
def byteCpu (a b : Nat) : CPU :=
  { CPU.reset 0x200 with memory := fun i => if i = a then b else 0 }

/-- The reset state with `registers[A] = a`, `registers[B] = b` and
`EFLAGS = f`. -/
def aluCpu (a b f : Nat) : CPU :=
  (((CPU.reset 16).setReg Reg.A a).setReg Reg.B b).setProt ProtectedReg.EFLAGS f

/-- A memory image given by its non-zero bytes, as (address, byte) pairs. -/
def imageOf (bytes : List (Nat × Nat)) : Nat → Nat := fun a => (bytes.lookup a).getD 0

/-- The 32-bit instruction word with the given fields. -/
def encodeWord (op r0 r1 off : Nat) : Nat := (op <<< 24) ||| (r0 <<< 20) ||| (r1 <<< 16) ||| off

/-- A state with `registers[A] = 0xABCD`, `registers[SP] = 0x100`, paging off
and 512 bytes of zeroed memory. -/
def stackCpu : CPU := ((CPU.reset 0x200).setReg Reg.A 0xABCD).setReg Reg.SP 0x100

/-- A state about to take an interrupt: `IP = 0x40`, `EFLAGS = CARRY`,
`SP = 0x300`, `PSP = 0x200`, `IJT = 0x100`, 1024 bytes of zeroed memory. -/
def entryCpu : CPU :=
  { (((((CPU.reset 0x400).setReg Reg.SP 0x300).setProt ProtectedReg.EFLAGS EF.CARRY).setProt
      ProtectedReg.PSP 0x200).setProt ProtectedReg.IJT 0x100) with ip := 0x40 }

/-- A state whose first bytes `00 0F 1D` are assembled by the fetch of
`cpu.cpp` into `0x1D0F0000` (`DIV A, Z`), with `IJT = 0x1000`, the bytes
`00 02 00 00` at `0x1010` (the vector of `ALU_FAULT`), `PSP = 0x2000`,
`SP = 0x2800` and 0x3000 bytes of memory. -/
def divZeroCpu : CPU :=
  { (((CPU.reset 0x3000).setReg Reg.SP 0x2800).setProt ProtectedReg.PSP 0x2000).setProt
      ProtectedReg.IJT 0x1000 with
    memory := imageOf [(1, 0x0F), (2, 0x1D), (0x1011, 0x02)] }

/-- A state with paging on (`EFLAGS = PAGING_ENABLE`, protection off),
`RPT = 0x1000`, the root entry `0x00002001` stored little-endian at `0x1000`
(frame `0x2000`, `OCCUPIED`) and the page entry `0x00003001` stored
little-endian at `0x2000` (frame `0x3000`, `OCCUPIED`); 0x4000 bytes of
memory. -/
def pagedCpu : CPU :=
  { ((CPU.reset 0x4000).setProt ProtectedReg.EFLAGS EF.PAGING_ENABLE).setProt
      ProtectedReg.RPT 0x1000 with
    memory := imageOf [(0x1000, 0x01), (0x1001, 0x20), (0x2000, 0x01), (0x2001, 0x30)] }

/-- A state with paging and protection on
(`EFLAGS = PAGING_ENABLE | PROTECTED_ENABLE`), `RPT = 0x1000` and 0x4000 bytes
of memory: the root entry of address 0, stored little-endian at `0x1000`, is
`0x00000003` (`OCCUPIED | PROTECTED`); the root entry of address `0x02000000`
(root index 8), stored at `0x1008`, is `0x00000001` (`OCCUPIED`, not
`WRITABLE`); the root entry of `0xDEADBEEF` (root index `0x37A`), stored at
`0x137A`, is 0. -/
def protectedPagedCpu : CPU :=
  { ((CPU.reset 0x4000).setProt ProtectedReg.EFLAGS
      (EF.PAGING_ENABLE ||| EF.PROTECTED_ENABLE)).setProt ProtectedReg.RPT 0x1000 with
    memory := imageOf [(0x1000, 0x03), (0x1008, 0x01)] }

/-- The state `movZCpu` (first instruction fetched as `MOV Z, Z+0x100`) with a
hardware interrupt pending: `intSet = true`, `EFLAGS = INTERRUPT_ENABLE`,
`handlingInterrupt = false`. -/
def hwPendingCpu : CPU :=
  { movZCpu.setProt ProtectedReg.EFLAGS EF.INTERRUPT_ENABLE with intSet := true }

/-! ## Auxiliary lemmas -/

theorem Res.bind_eq_ok {α β : Type} {r : Res α} {f : α → CPU → Res β} {b : β} {c' : CPU}
    (h : r.bind f = .ok b c') : ∃ a c1, r = .ok a c1 ∧ f a c1 = .ok b c' := by
  cases r <;> simp [Res.bind] at h
  exact ⟨_, _, rfl, h⟩

theorem shl_or_eq_add (a b i : Nat) (h : b < 2 ^ i) : a <<< i ||| b = a * 2 ^ i + b := by
  rw [Nat.shiftLeft_eq, Nat.mul_comm, ← Nat.mul_add_lt_is_or h]

theorem and_shifted_mask (w k n : Nat) :
    (w &&& ((2 ^ n - 1) <<< k)) >>> k = (w / 2 ^ k) % 2 ^ n := by
  apply Nat.eq_of_testBit_eq
  intro i
  simp only [Nat.testBit_shiftRight, Nat.testBit_and, Nat.testBit_shiftLeft,
    Nat.testBit_two_pow_sub_one, Nat.testBit_mod_two_pow, ← Nat.shiftRight_eq_div_pow]
  by_cases h : i < n <;> simp [h]

theorem encode_eq (op r0 r1 m : Nat) (hr0 : r0 < 16) (hr1 : r1 < 16) (hm : m < 2 ^ 16) :
    (op <<< 24) ||| (r0 <<< 20) ||| (r1 <<< 16) ||| m
      = op * 2 ^ 24 + r0 * 2 ^ 20 + r1 * 2 ^ 16 + m := by
  have h1 : r1 <<< 16 ||| m = r1 * 2 ^ 16 + m := shl_or_eq_add _ _ _ hm
  have h2 : r0 <<< 20 ||| (r1 * 2 ^ 16 + m) = r0 * 2 ^ 20 + (r1 * 2 ^ 16 + m) :=
    shl_or_eq_add _ _ _ (by omega)
  have h3 : op <<< 24 ||| (r0 * 2 ^ 20 + (r1 * 2 ^ 16 + m))
      = op * 2 ^ 24 + (r0 * 2 ^ 20 + (r1 * 2 ^ 16 + m)) := shl_or_eq_add _ _ _ (by omega)
  rw [Nat.or_assoc, Nat.or_assoc, h1, h2, h3]
  omega

theorem shl8_mod_low_byte (x k : Nat) (hk : 8 ≤ k) : ((x <<< 8) % 2 ^ k) % 256 = 0 := by
  obtain ⟨j, rfl⟩ : ∃ j, k = 8 + j := ⟨k - 8, by omega⟩
  rw [Nat.shiftLeft_eq, Nat.pow_add, Nat.mul_comm x, Nat.mul_mod_mul_left]
  simp

theorem fetchLoop_low_byte (c : CPU) (pa : Nat) :
    ∀ (n ret w : Nat), ret % 256 = 0 → fetchLoop c pa n ret = some w → w % 256 = 0 := by
  intro n
  induction n with
  | zero =>
    intro ret w h0 h
    simp only [fetchLoop, Option.some.injEq] at h
    rw [← h]; exact h0
  | succ i ih =>
    intro ret w _ h
    simp only [fetchLoop] at h
    split at h
    · exact ih _ w (shl8_mod_low_byte _ 32 (by decide)) h
    · cases h

theorem mLoadLoop_low_byte (c : CPU) (pa : Nat) :
    ∀ (n ret w : Nat), ret % 256 = 0 → mLoadLoop c pa n ret = some w → w % 256 = 0 := by
  intro n
  induction n with
  | zero =>
    intro ret w h0 h
    simp only [mLoadLoop, Option.some.injEq] at h
    rw [← h]; exact h0
  | succ i ih =>
    intro ret w _ h
    simp only [mLoadLoop] at h
    split at h
    · exact ih _ w (shl8_mod_low_byte _ 64 (by decide)) h
    · cases h

/-- Whatever the memory holds, the value returned by `mLoad` has its low byte
zero: the loop shifts once more after the last byte has been or-ed in. -/
theorem mLoad_low_byte_zero (c : CPU) (pa n w : Nat) (h : mLoad c pa n = some w) :
    w % 256 = 0 :=
  mLoadLoop_low_byte c _ n 0 w rfl h

/-- Whatever the memory holds, a fetched instruction word has its low byte zero. -/
theorem fetchInstruction_low_byte_zero (c c' : CPU) (w : Nat)
    (h : fetchInstruction c = .ok w c') : w % 256 = 0 := by
  unfold fetchInstruction at h
  obtain ⟨pa, c1, -, h2⟩ := Res.bind_eq_ok h
  unfold Res.ofOption at h2
  split at h2
  · rename_i a ha
    injection h2 with e _
    subst e
    exact fetchLoop_low_byte c1 pa 5 0 _ rfl ha
  · cases h2

theorem or_eq_add_of_low_byte (x b : Nat) (hx : x % 256 = 0) (hb : b < 256) :
    x ||| b = x + b := by
  have h8 : (256 : Nat) = 2 ^ 8 := rfl
  have hx2 : x = 2 ^ 8 * (x / 256) := by omega
  rw [hx2, Nat.mul_add_lt_is_or (by omega)]

theorem loop_step_arith (M ret m n L : Nat) :
    (((ret + m) * 256 % M) * 256 ^ n + L * 256) % M
      = (ret * 256 ^ (n + 1) + (L + m * 256 ^ n) * 256) % M := by
  have h : ((ret + m) * 256 % M * 256 ^ n + L * 256) % M
      = ((ret + m) * 256 * 256 ^ n + L * 256) % M :=
    ((Nat.mod_modEq _ _).mul_right _).add_right _
  rw [h]
  congr 1
  ring

theorem mLoadLoop_eq (c : CPU) (pa : Nat) :
    ∀ (n ret : Nat), ret % 256 = 0 → ret < 2 ^ 64 → pa + n ≤ 2 ^ 32 → pa + n ≤ c.memSize →
      (∀ j, j < n → c.memory (pa + j) < 256) →
      mLoadLoop c pa n ret
        = some ((ret * 256 ^ n + leValue c.memory pa n * 256) % 2 ^ 64) := by
  intro n
  induction n with
  | zero =>
    intro ret _ hr _ _ _
    simp only [mLoadLoop, leValue, pow_zero, mul_one, zero_mul, add_zero]
    rw [Nat.mod_eq_of_lt hr]
  | succ n ih =>
    intro ret h0 _ h32 hsz hb
    have hm : (pa + n) % 2 ^ 32 = pa + n := Nat.mod_eq_of_lt (by omega)
    have hbn := hb n (by omega)
    have h256 : (2 : Nat) ^ 8 = 256 := rfl
    have hlt : ((ret + c.memory (pa + n)) * 256) % 2 ^ 64 < 2 ^ 64 := Nat.mod_lt _ (by decide)
    have hlow : ((ret + c.memory (pa + n)) * 256) % 2 ^ 64 % 256 = 0 := by
      rw [← h256, ← Nat.shiftLeft_eq]; exact shl8_mod_low_byte _ 64 (by decide)
    simp only [mLoadLoop, hm]
    rw [if_pos (by omega), or_eq_add_of_low_byte _ _ h0 hbn, Nat.shiftLeft_eq, h256,
      ih _ hlow hlt (by omega) (by omega) (fun j hj => hb j (by omega)), loop_step_arith]
    rfl

theorem fetchLoop_eq (c : CPU) (pa : Nat) :
    ∀ (n ret : Nat), ret % 256 = 0 → ret < 2 ^ 32 → pa + n ≤ 2 ^ 32 → pa + n ≤ c.memSize →
      (∀ j, j < n → c.memory (pa + j) < 256) →
      fetchLoop c pa n ret
        = some ((ret * 256 ^ n + leValue c.memory pa n * 256) % 2 ^ 32) := by
  intro n
  induction n with
  | zero =>
    intro ret _ hr _ _ _
    simp only [fetchLoop, leValue, pow_zero, mul_one, zero_mul, add_zero]
    rw [Nat.mod_eq_of_lt hr]
  | succ n ih =>
    intro ret h0 _ h32 hsz hb
    have hm : (pa + n) % 2 ^ 32 = pa + n := Nat.mod_eq_of_lt (by omega)
    have hbn := hb n (by omega)
    have h256 : (2 : Nat) ^ 8 = 256 := rfl
    have hlt : ((ret + c.memory (pa + n)) * 256) % 2 ^ 32 < 2 ^ 32 := Nat.mod_lt _ (by decide)
    have hlow : ((ret + c.memory (pa + n)) * 256) % 2 ^ 32 % 256 = 0 := by
      rw [← h256, ← Nat.shiftLeft_eq]; exact shl8_mod_low_byte _ 32 (by decide)
    simp only [fetchLoop, hm]
    rw [if_pos (by omega), or_eq_add_of_low_byte _ _ h0 hbn, Nat.shiftLeft_eq, h256,
      ih _ hlow hlt (by omega) (by omega) (fun j hj => hb j (by omega)), loop_step_arith]
    rfl

/-- With paging off and `IP .. IP+4` inside memory, `fetchInstruction` returns
`(mem[IP+2] << 24) | (mem[IP+1] << 16) | (mem[IP] << 8)`, written as a sum. -/
theorem fetchInstruction_eq (c : CPU) (hp : c.flagSet EF.PAGING_ENABLE = false)
    (h32 : c.ip % 2 ^ 32 + 5 ≤ 2 ^ 32) (hsz : c.ip % 2 ^ 32 + 5 ≤ c.memSize)
    (hb : ∀ j, j < 5 → c.memory (c.ip % 2 ^ 32 + j) < 256) :
    fetchInstruction c
      = .ok (c.memory (c.ip % 2 ^ 32) * 2 ^ 8 + c.memory (c.ip % 2 ^ 32 + 1) * 2 ^ 16
              + c.memory (c.ip % 2 ^ 32 + 2) * 2 ^ 24) c := by
  unfold fetchInstruction resolveAddress
  simp only [hp, Bool.false_eq_true, not_false_eq_true, if_true, Res.bind]
  rw [fetchLoop_eq c _ 5 0 rfl (by decide) h32 hsz hb]
  simp only [Res.ofOption, leValue]
  congr 1
  have b0 := hb 0 (by decide)
  have b1 := hb 1 (by decide)
  have b2 := hb 2 (by decide)
  have b3 := hb 3 (by decide)
  have b4 := hb 4 (by decide)
  simp only [Nat.add_zero, Nat.zero_mul, Nat.zero_add, pow_zero, pow_one, Nat.mul_one] at b0 ⊢
  omega

/-- With the `n` bytes at `pa` inside memory, `mLoad` returns their
little-endian value shifted left by 8 and truncated to 64 bits. -/
theorem mLoad_eq (c : CPU) (pa n : Nat) (h32 : pa + n ≤ 2 ^ 32) (hsz : pa + n ≤ c.memSize)
    (hb : ∀ j, j < n → c.memory (pa + j) < 256) :
    mLoad c pa n = some ((leValue c.memory pa n * 256) % 2 ^ 64) := by
  unfold mLoad
  cases n with
  | zero => simp [mLoadLoop, leValue]
  | succ n =>
    have hpa : pa % 2 ^ 32 = pa := Nat.mod_eq_of_lt (by omega)
    rw [hpa, mLoadLoop_eq c pa (n + 1) 0 rfl (by decide) h32 hsz hb]
    simp

theorem memSize_setMem (c : CPU) (i v : Nat) : (c.setMem i v).memSize = c.memSize := rfl

theorem mStoreLoop_eq (pa : Nat) :
    ∀ (n i data : Nat) (c : CPU), pa + i + n ≤ 2 ^ 32 → pa + i + n ≤ c.memSize →
      ∃ c', mStoreLoop pa n i data c = some c' ∧ c'.memSize = c.memSize ∧
        c'.registers = c.registers ∧ c'.protectedReg = c.protectedReg ∧
        (∀ j, j < n → c'.memory (pa + i + j) = (data >>> (8 * j)) % 256) ∧
        (∀ a, (a < pa + i ∨ pa + i + n ≤ a) → c'.memory a = c.memory a) := by
  intro n
  induction n with
  | zero =>
    intro i data c _ _
    exact ⟨c, rfl, rfl, rfl, rfl, fun j hj => absurd hj (by omega), fun a _ => rfl⟩
  | succ n ih =>
    intro i data c h32 hsz
    have hm : (pa + i) % 2 ^ 32 = pa + i := Nat.mod_eq_of_lt (by omega)
    obtain ⟨c', h1, h2, h3, h4, h5, h6⟩ :=
      ih (i + 1) (data >>> 8) (c.setMem (pa + i) (data % 256))
        (by omega) (by rw [memSize_setMem]; omega)
    refine ⟨c', ?_, h2, h3, h4, ?_, ?_⟩
    · simp only [mStoreLoop, hm]
      rw [if_pos (by omega), h1]
    · intro j hj
      cases j with
      | zero =>
        rw [h6 (pa + i + 0) (by omega)]
        simp [CPU.setMem]
      | succ j =>
        have := h5 j (by omega)
        rw [show pa + i + (j + 1) = pa + (i + 1) + j by omega, this, ← Nat.shiftRight_add,
          show 8 + 8 * j = 8 * (j + 1) by omega]
    · intro a ha
      rw [h6 a (by omega)]
      have : a ≠ pa + i := by omega
      simp [CPU.setMem, Function.update, this]

theorem leValue_of_bytes (mem : Nat → Nat) (a data : Nat) :
    ∀ n, (∀ j, j < n → mem (a + j) = (data >>> (8 * j)) % 256) →
      leValue mem a n = data % 256 ^ n := by
  intro n
  induction n with
  | zero => intro _; simp [leValue, Nat.mod_one]
  | succ n ih =>
    intro h
    rw [leValue, ih (fun j hj => h j (by omega)), h n (by omega), Nat.mod_pow_succ,
      Nat.shiftRight_eq_div_pow, Nat.pow_mul]
    have : (2 : Nat) ^ 8 = 256 := rfl
    rw [this, Nat.mul_comm]

/-- Store/load as the code computes it: with the `n` bytes at `pa` inside
memory, `mLoad(pa, n)` after `mStore(pa, v, n)` returns the low `8n` bits of `v`
shifted left by 8 and truncated to 64 bits. -/
theorem mLoad_mStore (c : CPU) (pa v n : Nat) (h32 : pa + n ≤ 2 ^ 32)
    (hsz : pa + n ≤ c.memSize) :
    ∃ c', mStore c pa v n = some c' ∧
      mLoad c' pa n = some (((v % 2 ^ 64 % 256 ^ n) * 256) % 2 ^ 64) := by
  cases n with
  | zero => exact ⟨c, rfl, by simp [mLoad, mLoadLoop, Nat.mod_one]⟩
  | succ n =>
    have hpa : pa % 2 ^ 32 = pa := Nat.mod_eq_of_lt (by omega)
    obtain ⟨c', h1, h2, -, -, h5, -⟩ :=
      mStoreLoop_eq pa (n + 1) 0 (v % 2 ^ 64) c (by omega) (by omega)
    simp only [Nat.add_zero] at h5
    refine ⟨c', by unfold mStore; rw [hpa]; exact h1, ?_⟩
    rw [mLoad_eq c' pa (n + 1) h32 (by omega)
      (fun j hj => by rw [h5 j hj]; exact Nat.mod_lt _ (by decide)),
      leValue_of_bytes c'.memory pa (v % 2 ^ 64) (n + 1) h5]

theorem leValue_lt (mem : Nat → Nat) (a : Nat) :
    ∀ n, (∀ j, j < n → mem (a + j) < 256) → leValue mem a n < 256 ^ n := by
  intro n
  induction n with
  | zero => intro _; simp [leValue]
  | succ n ih =>
    intro h
    have h1 := ih (fun j hj => h j (by omega))
    have h2 := h n (by omega)
    rw [leValue, Nat.pow_succ]
    have : mem (a + n) * 256 ^ n ≤ 255 * 256 ^ n := Nat.mul_le_mul_right _ (by omega)
    omega

/-- With paging off and the accessed bytes inside memory, each of `LB`, `LBU`,
`LH`, `LHU`, `LW`, `LWU` writes to `registers[r0]` the little-endian value of
the `w` bytes shifted left by 8, with no sign or zero extension of the value
itself. -/
theorem executeLoad_narrow_eq (inst : Inst) (c : CPU) (w addr : Nat)
    (hp : c.flagSet EF.PAGING_ENABLE = false)
    (hop : Op.LB ≤ inst.opcode ∧ inst.opcode ≤ Op.LWU)
    (hw : w = if inst.opcode ≤ Op.LBU then 1 else if inst.opcode ≤ Op.LHU then 2 else 4)
    (ha : addr = (c.registers inst.r1 + toU64 inst.offset) % 2 ^ 64 % 2 ^ 32)
    (h32 : addr + w ≤ 2 ^ 32) (hsz : addr + w ≤ c.memSize)
    (hb : ∀ j, j < w → c.memory (addr + j) < 256) :
    executeLoad inst c = .ok () (c.setReg inst.r0 (leValue c.memory addr w * 256)) := by
  have hlt := leValue_lt c.memory addr w hb
  have hw4 : w = 1 ∨ w = 2 ∨ w = 4 := by
    rw [hw]; split
    · exact Or.inl rfl
    · split
      · exact Or.inr (Or.inl rfl)
      · exact Or.inr (Or.inr rfl)
  have hsmall : leValue c.memory addr w * 256 < 2 ^ 40 := by
    rcases hw4 with h | h | h <;> rw [h] at hlt ⊢ <;> omega
  have hmod : (leValue c.memory addr w * 256) % 2 ^ 64 = leValue c.memory addr w * 256 :=
    Nat.mod_eq_of_lt (by omega)
  have hload := mLoad_eq c addr w h32 hsz hb
  rw [hmod] at hload
  have hsx : signExtend (leValue c.memory addr w * 256) w
      = some (leValue c.memory addr w * 256) := by
    have hs : toS64 (leValue c.memory addr w * 256) = ((leValue c.memory addr w * 256 : Nat) : Int) := by
      unfold toS64
      rw [if_pos (by omega)]
    unfold signExtend
    rw [hs, if_neg (by omega)]
  have haddr : addr % 2 ^ 32 = addr := by rw [ha]; exact Nat.mod_mod _ _
  have hnb : (if inst.opcode ≤ Op.LBU then 1 else if inst.opcode ≤ Op.LHU then 2
      else if inst.opcode ≤ Op.LWU then 4 else 8) = w := by
    rw [hw, if_pos hop.2]
  unfold executeLoad resolveAddress
  simp only [hp, Bool.false_eq_true, not_false_eq_true, if_true, Res.bind, ← ha, hnb, haddr,
    hload, Option.bind, hsx, ite_self]

theorem and_two_pow_ne_zero (x i : Nat) : x &&& 2 ^ i ≠ 0 ↔ x.testBit i = true := by
  constructor
  · intro h
    obtain ⟨j, hj⟩ := Nat.ne_zero_implies_bit_true h
    rw [Nat.testBit_and, Nat.testBit_two_pow] at hj
    simp only [Bool.and_eq_true, decide_eq_true_eq] at hj
    rw [hj.2]; exact hj.1
  · intro h h0
    have : (x &&& 2 ^ i).testBit i = true := by
      rw [Nat.testBit_and, Nat.testBit_two_pow_self, h]; rfl
    rw [h0] at this
    simp at this

theorem flagSet_eq_testBit (c : CPU) (i : Nat) : c.flagSet (2 ^ i) = c.eflags.testBit i := by
  unfold CPU.flagSet
  rw [Bool.eq_iff_iff, decide_eq_true_iff]
  exact and_two_pow_ne_zero _ _

theorem eflags_setReg (c : CPU) (r : Fin 16) (v : Nat) :
    (c.setReg r v).eflags = c.eflags := rfl

theorem eflags_orFlags (c : CPU) (m : Nat) : (c.orFlags m).eflags = c.eflags ||| m := by
  simp [CPU.orFlags, CPU.eflags, CPU.setProt]

theorem eflags_andFlags (c : CPU) (m : Nat) : (c.andFlags m).eflags = c.eflags &&& m := by
  simp [CPU.andFlags, CPU.eflags, CPU.setProt]

theorem registers_setReg_same (c : CPU) (r : Fin 16) (v : Nat) :
    (c.setReg r v).registers r = v := by simp [CPU.setReg]

theorem switch_ADD {inst : Inst} (o1 o2 : Nat) (c : CPU) (h : inst.opcode = Op.ADD) :
    binaryRegOpSwitch inst o1 o2 c =
      .ok ((o1 + o2) % 2 ^ 64)
        (if (o1 + o2) % 2 ^ 64 < o1 then
          (if didOverflow o1 o2 ((o1 + o2) % 2 ^ 64) then c.orFlags EF.OVERFLOW else c).orFlags
            EF.CARRY
         else (if didOverflow o1 o2 ((o1 + o2) % 2 ^ 64) then c.orFlags EF.OVERFLOW else c)) := by
  unfold binaryRegOpSwitch
  rw [if_pos h]

theorem switch_SUB {inst : Inst} (o1 o2 : Nat) (c : CPU) (h : inst.opcode = Op.SUB) :
    binaryRegOpSwitch inst o1 o2 c =
      .ok ((o1 + 2 ^ 64 - o2) % 2 ^ 64)
        (if o2 > o1 then
          (if didOverflow o1 o2 ((o1 + 2 ^ 64 - o2) % 2 ^ 64) then c.orFlags EF.OVERFLOW
           else c).orFlags EF.CARRY
         else (if didOverflow o1 o2 ((o1 + 2 ^ 64 - o2) % 2 ^ 64) then c.orFlags EF.OVERFLOW
           else c)) := by
  unfold binaryRegOpSwitch
  rw [if_neg (by rw [h]; decide), if_pos h]

theorem binaryRegOpSwitch_eflags_other {inst : Inst} {o1 o2 result : Nat} {c c1 : CPU}
    (hA : inst.opcode ≠ Op.ADD) (hS : inst.opcode ≠ Op.SUB)
    (h : binaryRegOpSwitch inst o1 o2 c = .ok result c1) :
    c1.eflags = c.eflags := by
  unfold binaryRegOpSwitch at h
  rw [if_neg hA, if_neg hS] at h
  by_cases h1 : inst.opcode = Op.MUL
  · rw [if_pos h1] at h
    injection h with _ e; subst e; rfl
  rw [if_neg h1] at h
  by_cases h2 : inst.opcode = Op.SMUL
  · rw [if_pos h2] at h
    split at h
    · injection h with _ e; subst e; rfl
    · cases h
  rw [if_neg h2] at h
  by_cases h3 : inst.opcode = Op.DIV
  · rw [if_pos h3] at h
    split at h
    · cases h
    · injection h with _ e; subst e; rfl
  rw [if_neg h3] at h
  by_cases h4 : inst.opcode = Op.SDIV
  · rw [if_pos h4] at h
    split at h
    · cases h
    · split at h
      · cases h
      · injection h with _ e; subst e; rfl
  rw [if_neg h4] at h
  by_cases h5 : inst.opcode = Op.SSHR
  · rw [if_pos h5] at h
    split at h
    · split at h
      · injection h with _ e; subst e; rfl
      · cases h
    · unfold Res.ofOption at h
      split at h
      · injection h with _ e; subst e; rfl
      · cases h
  rw [if_neg h5] at h
  by_cases h6 : inst.opcode = Op.AND
  · rw [if_pos h6] at h
    injection h with _ e; subst e; rfl
  rw [if_neg h6] at h
  by_cases h7 : inst.opcode = Op.OR
  · rw [if_pos h7] at h
    injection h with _ e; subst e; rfl
  rw [if_neg h7] at h
  by_cases h8 : inst.opcode = Op.XOR
  · rw [if_pos h8] at h
    injection h with _ e; subst e; rfl
  rw [if_neg h8] at h
  by_cases h9 : inst.opcode = Op.SHL
  · rw [if_pos h9] at h
    unfold Res.ofOption at h
    split at h
    · injection h with _ e; subst e; rfl
    · cases h
  rw [if_neg h9] at h
  by_cases h10 : inst.opcode = Op.SHR
  · rw [if_pos h10] at h
    unfold Res.ofOption at h
    split at h
    · injection h with _ e; subst e; rfl
    · cases h
  rw [if_neg h10] at h
  injection h with _ e; subst e; rfl

theorem flags_cases (c : CPU) (p q : Prop) [Decidable p] [Decidable q] :
    (if q then (if p then c.orFlags EF.OVERFLOW else c).orFlags EF.CARRY
      else (if p then c.orFlags EF.OVERFLOW else c)).eflags
      = c.eflags ||| (if p then EF.OVERFLOW else 0) ||| (if q then EF.CARRY else 0) := by
  by_cases hp : p <;> by_cases hq : q <;>
    simp only [hp, hq, if_true, if_false, eflags_orFlags, Nat.or_zero]

/-- The flags after the `switch`: only `OVERFLOW` and `CARRY` can have been added. -/
theorem binaryRegOpSwitch_eflags {inst : Inst} {o1 o2 result : Nat} {c c1 : CPU}
    (h : binaryRegOpSwitch inst o1 o2 c = .ok result c1) :
    ∃ v k : Bool, c1.eflags
      = c.eflags ||| (if v then EF.OVERFLOW else 0) ||| (if k then EF.CARRY else 0) := by
  by_cases hA : inst.opcode = Op.ADD
  · rw [switch_ADD o1 o2 c hA] at h
    injection h with _ e; subst e
    refine ⟨didOverflow o1 o2 ((o1 + o2) % 2 ^ 64), decide ((o1 + o2) % 2 ^ 64 < o1), ?_⟩
    rw [flags_cases]; simp only [decide_eq_true_eq]
  by_cases hS : inst.opcode = Op.SUB
  · rw [switch_SUB o1 o2 c hS] at h
    injection h with _ e; subst e
    refine ⟨didOverflow o1 o2 ((o1 + 2 ^ 64 - o2) % 2 ^ 64), decide (o2 > o1), ?_⟩
    rw [flags_cases]; simp only [decide_eq_true_eq]
  exact ⟨false, false, by
    rw [binaryRegOpSwitch_eflags_other hA hS h]; simp⟩

theorem and_msbMask (x : Nat) (h : x < 2 ^ 64) :
    x &&& msbMask = if x < 2 ^ 63 then 0 else 2 ^ 63 := by
  have hm : msbMask = 2 ^ 63 := rfl
  rw [hm]
  apply Nat.eq_of_testBit_eq
  intro i
  rw [Nat.testBit_and, Nat.testBit_two_pow]
  split
  · rename_i hlt
    by_cases hi : 63 = i
    · subst hi; simp [Nat.testBit_lt_two_pow hlt]
    · simp [hi]
  · rename_i hge
    by_cases hi : 63 = i
    · subst hi
      have hx : x = 2 ^ 63 + (x - 2 ^ 63) := by omega
      have hb : (x - 2 ^ 63).testBit 63 = false := Nat.testBit_lt_two_pow (by omega)
      rw [hx, Nat.testBit_two_pow_add_eq, hb, Nat.testBit_two_pow_self]; rfl
    · rw [Nat.testBit_two_pow_of_ne hi]; simp [hi]

theorem didOverflow_add (o1 o2 : Nat) (h1 : o1 < 2 ^ 64) (h2 : o2 < 2 ^ 64) :
    didOverflow o1 o2 ((o1 + o2) % 2 ^ 64) = true ↔
      (toS64 o1 + toS64 o2 < -(2 ^ 63) ∨ 2 ^ 63 - 1 < toS64 o1 + toS64 o2) := by
  unfold didOverflow
  simp only []
  rw [and_msbMask o1 h1, and_msbMask o2 h2, and_msbMask _ (Nat.mod_lt _ (by decide))]
  unfold toS64
  by_cases a1 : o1 < 2 ^ 63 <;> by_cases a2 : o2 < 2 ^ 63 <;>
    by_cases a3 : (o1 + o2) % 2 ^ 64 < 2 ^ 63 <;>
    simp only [a1, a2, a3, if_true, if_false, decide_eq_true_eq] <;>
    first
    | omega
    | (simp; omega)

theorem testBit_ite_two_pow (p : Prop) [Decidable p] (m i : Nat) :
    (if p then 2 ^ m else 0).testBit i = (decide p && decide (m = i)) := by
  by_cases hp : p <;> simp [hp, Nat.testBit_two_pow]

theorem eflags_finish (c1 : CPU) (r : Fin 16) (result : Nat) :
    ((if result &&& msbMask ≠ 0 then
        (if result = 0 then c1.orFlags EF.ZERO else c1).orFlags EF.NEGATIVE
      else if result = 0 then c1.orFlags EF.ZERO else c1).setReg r result).eflags
      = c1.eflags ||| (if result = 0 then 2 ^ 2 else 0)
          ||| (if result &&& msbMask ≠ 0 then 2 ^ 3 else 0) := by
  have hZ : EF.ZERO = 2 ^ 2 := rfl
  have hN : EF.NEGATIVE = 2 ^ 3 := rfl
  split_ifs <;> simp only [eflags_orFlags, eflags_setReg, Nat.or_zero, hZ, hN]

theorem executeBinaryRegOp_ADD_eq (inst : Inst) (c : CPU) (hop : inst.opcode = Op.ADD) :
    ∃ c', executeBinaryRegOp inst c = .ok () c' ∧
      c'.registers inst.r0
        = (c.registers inst.r0 + (c.registers inst.r1 + toU64 inst.offset) % 2 ^ 64) % 2 ^ 64 ∧
      c'.eflags = (c.eflags &&& (2 ^ 2 - 1))
        ||| (if didOverflow (c.registers inst.r0)
              ((c.registers inst.r1 + toU64 inst.offset) % 2 ^ 64)
              ((c.registers inst.r0 + (c.registers inst.r1 + toU64 inst.offset) % 2 ^ 64)
                % 2 ^ 64) = true then 2 ^ 1 else 0)
        ||| (if (c.registers inst.r0 + (c.registers inst.r1 + toU64 inst.offset) % 2 ^ 64)
                % 2 ^ 64 < c.registers inst.r0 then 2 ^ 0 else 0)
        ||| (if (c.registers inst.r0 + (c.registers inst.r1 + toU64 inst.offset) % 2 ^ 64)
                % 2 ^ 64 = 0 then 2 ^ 2 else 0)
        ||| (if (c.registers inst.r0 + (c.registers inst.r1 + toU64 inst.offset) % 2 ^ 64)
                % 2 ^ 64 &&& msbMask ≠ 0 then 2 ^ 3 else 0) := by
  refine ⟨_, by
    show (binaryRegOpSwitch inst _ _ _).bind _ = _
    rw [switch_ADD _ _ _ hop]; rfl, ?_, ?_⟩
  · exact registers_setReg_same _ _ _
  · rw [eflags_finish, flags_cases, eflags_andFlags]
    rfl

theorem didOverflow_sub (o1 o2 : Nat) (h1 : o1 < 2 ^ 64) (h2 : o2 < 2 ^ 64)
    (h : didOverflow o1 o2 ((o1 + 2 ^ 64 - o2) % 2 ^ 64) = true) :
    -(2 ^ 63) ≤ toS64 o1 - toS64 o2 ∧ toS64 o1 - toS64 o2 ≤ 2 ^ 63 - 1 := by
  unfold didOverflow at h
  simp only [] at h
  rw [and_msbMask o1 h1, and_msbMask o2 h2] at h
  unfold toS64
  by_cases a1 : o1 < 2 ^ 63 <;> by_cases a2 : o2 < 2 ^ 63 <;>
    simp only [a1, a2, if_true, if_false] at h ⊢ <;>
    first
    | omega
    | (simp at h)

theorem executeBinaryRegOp_eflags_form (inst : Inst) (c c' : CPU)
    (h : executeBinaryRegOp inst c = .ok () c') :
    ∃ v k : Bool, c'.eflags = (c.eflags &&& (2 ^ 2 - 1))
        ||| (if v then 2 ^ 1 else 0) ||| (if k then 2 ^ 0 else 0)
        ||| (if c'.registers inst.r0 = 0 then 2 ^ 2 else 0)
        ||| (if c'.registers inst.r0 &&& msbMask ≠ 0 then 2 ^ 3 else 0) := by
  unfold executeBinaryRegOp at h
  obtain ⟨result, c1, hsw, h2⟩ := Res.bind_eq_ok h
  simp only [Res.ok.injEq, true_and] at h2
  obtain ⟨v, k, hf⟩ := binaryRegOpSwitch_eflags hsw
  rw [eflags_andFlags] at hf
  subst c'
  refine ⟨v, k, ?_⟩
  rw [eflags_finish, registers_setReg_same, hf]
  rfl

theorem executeBinaryRegOp_eflags_lt (inst : Inst) (c c' : CPU)
    (h : executeBinaryRegOp inst c = .ok () c') : c'.eflags < 2 ^ 4 := by
  obtain ⟨v, k, hf⟩ := executeBinaryRegOp_eflags_form inst c c' h
  rw [hf]
  refine Nat.or_lt_two_pow (Nat.or_lt_two_pow (Nat.or_lt_two_pow (Nat.or_lt_two_pow ?_ ?_) ?_) ?_) ?_
  · exact Nat.and_lt_two_pow _ (by decide)
  · cases v <;> decide
  · cases k <;> decide
  · split <;> decide
  · split <;> decide

/-- Every completed ALU operation leaves the three mode bits of `EFLAGS` clear,
whatever they were before. -/
theorem executeBinaryRegOp_clears_mode_flags (inst : Inst) (c c' : CPU)
    (h : executeBinaryRegOp inst c = .ok () c') :
    c'.flagSet EF.PROTECTED_ENABLE = false ∧ c'.flagSet EF.PAGING_ENABLE = false
      ∧ c'.flagSet EF.INTERRUPT_ENABLE = false := by
  have hlt := executeBinaryRegOp_eflags_lt inst c c' h
  have e1 : EF.PROTECTED_ENABLE = 2 ^ 63 := rfl
  have e2 : EF.PAGING_ENABLE = 2 ^ 62 := rfl
  have e3 : EF.INTERRUPT_ENABLE = 2 ^ 61 := rfl
  rw [e1, e2, e3, flagSet_eq_testBit, flagSet_eq_testBit, flagSet_eq_testBit]
  refine ⟨Nat.testBit_lt_two_pow ?_, Nat.testBit_lt_two_pow ?_, Nat.testBit_lt_two_pow ?_⟩ <;>
    omega

/-- With `OVERFLOW` clear beforehand, `SUB` sets it only when the signed
difference does fit in 64 bits. -/
theorem executeBinaryRegOp_sub_overflow_only_without (inst : Inst) (c c' : CPU)
    (hop : inst.opcode = Op.SUB) (hwf : c.registers inst.r0 < 2 ^ 64)
    (hclear : c.flagSet EF.OVERFLOW = false)
    (h : executeBinaryRegOp inst c = .ok () c')
    (hset : c'.flagSet EF.OVERFLOW = true) :
    -(2 ^ 63) ≤ toS64 (c.registers inst.r0)
        - toS64 ((c.registers inst.r1 + toU64 inst.offset) % 2 ^ 64) ∧
      toS64 (c.registers inst.r0)
        - toS64 ((c.registers inst.r1 + toU64 inst.offset) % 2 ^ 64) ≤ 2 ^ 63 - 1 := by
  apply didOverflow_sub _ _ hwf (Nat.mod_lt _ (by decide))
  have hc : executeBinaryRegOp inst c = (binaryRegOpSwitch inst _ _ _).bind _ := rfl
  rw [hc, switch_SUB _ _ _ hop] at h
  simp only [Res.bind, Res.ok.injEq, true_and] at h
  have hO : EF.OVERFLOW = 2 ^ 1 := rfl
  rw [hO, flagSet_eq_testBit] at hclear hset
  rw [← h, eflags_finish, flags_cases, eflags_andFlags] at hset
  by_contra hno
  rw [if_neg hno] at hset
  have hE : (EF.CARRY ||| EF.OVERFLOW) = 2 ^ 2 - 1 := rfl
  have hC : EF.CARRY = 2 ^ 0 := rfl
  rw [hE, hC] at hset
  simp only [Nat.testBit_or, Nat.testBit_and, Nat.testBit_two_pow_sub_one,
    testBit_ite_two_pow, hclear, Nat.zero_testBit] at hset
  simp at hset

/-- `SSHR` of a value with bit 63 set always shifts `UINT64_MAX` by 64 or more. -/
theorem executeBinaryRegOp_sshr_negative (inst : Inst) (c : CPU)
    (hop : inst.opcode = Op.SSHR) (hneg : c.registers inst.r0 &&& msbMask ≠ 0) :
    executeBinaryRegOp inst c = .undefined := by
  have hs : ∀ x, shl64 UINT64_MAX (max 64 x) = none := by
    intro x
    unfold shl64
    rw [if_neg (by omega)]
  show (binaryRegOpSwitch inst _ _ _).bind _ = _
  unfold binaryRegOpSwitch
  rw [if_neg (by rw [hop]; decide), if_neg (by rw [hop]; decide), if_neg (by rw [hop]; decide),
    if_neg (by rw [hop]; decide), if_neg (by rw [hop]; decide), if_neg (by rw [hop]; decide),
    if_pos hop, if_pos hneg, hs]
  cases shr64 (c.registers inst.r0) ((c.registers inst.r1 + toU64 inst.offset) % 2 ^ 64) <;> rfl

/-! ## The claims -/

/-- C1, evaluated on the code: with the bytes `2A 00 0F 00` at address 0 (the
little-endian storage of `0x000F002A`, `MOV A, Z+42`), paging off and a 16-byte
memory, `fetchInstruction` returns `0x0F002A00` and not the little-endian word
`0x000F002A`; one `progressClock` from reset then leaves `registers[A] = 0` and
`IP = 0x2A00` instead of `registers[A] = 42` and `IP = 4`. -/
theorem fetchInstruction_mov_image :
    (fetchInstruction movCpu).value? = some 0x0F002A00 ∧
    (0x2A ||| 0x00 <<< 8 ||| 0x0F <<< 16 ||| 0x00 <<< 24 : Nat) = 0x000F002A ∧
    (progressClock movCpu).state?.map (fun c => (c.registers Reg.A, c.ip))
      = some (0, 0x2A00) := by
  decide

/-- C2: for every opcode below 256, register fields below 16 and offset in
`[-32768, 32767]`, `decodeBinRegInst` applied to
`(op<<24) | (r0<<20) | (r1<<16) | (off mod 2^16)` returns exactly the
instruction with those four fields, the offset being the sign-extended low 16
bits. -/
theorem decodeBinRegInst_encode_roundtrip (op r0 r1 : Nat) (off : Int)
    (hop : op < 256) (hr0 : r0 < 16) (hr1 : r1 < 16)
    (hlo : -32768 ≤ off) (hhi : off ≤ 32767) :
    decodeBinRegInst ((op <<< 24) ||| (r0 <<< 20) ||| (r1 <<< 16) ||| (off % 2 ^ 16).toNat)
      = { opcode := op, r0 := ⟨r0, hr0⟩, r1 := ⟨r1, hr1⟩, offset := off } := by
  have hm : (off % 2 ^ 16).toNat < 2 ^ 16 := by omega
  rw [encode_eq op r0 r1 _ hr0 hr1 hm]
  generalize hmm : (off % 2 ^ 16).toNat = m at hm ⊢
  have hoff : off = if m < 2 ^ 15 then (m : Int) else (m : Int) - 2 ^ 16 := by
    split <;> omega
  unfold decodeBinRegInst
  have e0 : (0x00F00000 : Nat) = (2 ^ 4 - 1) <<< 20 := by decide
  have e1 : (0x000F0000 : Nat) = (2 ^ 4 - 1) <<< 16 := by decide
  rw [e0, e1, and_shifted_mask, and_shifted_mask, Nat.shiftRight_eq_div_pow]
  have a0 : (op * 2 ^ 24 + r0 * 2 ^ 20 + r1 * 2 ^ 16 + m) / 2 ^ 24 % 2 ^ 8 = op := by omega
  have a1 : (op * 2 ^ 24 + r0 * 2 ^ 20 + r1 * 2 ^ 16 + m) / 2 ^ 20 % 2 ^ 4 % 2 ^ 8 = r0 := by
    omega
  have a2 : (op * 2 ^ 24 + r0 * 2 ^ 20 + r1 * 2 ^ 16 + m) / 2 ^ 16 % 2 ^ 4 % 2 ^ 8 = r1 := by
    omega
  have a3 : (op * 2 ^ 24 + r0 * 2 ^ 20 + r1 * 2 ^ 16 + m) % 2 ^ 16 = m := by omega
  rw [a0, a1, a2, a3, ← hoff]
  congr 1
  · apply Fin.ext; simp [Fin.ofNat]; omega
  · apply Fin.ext; simp [Fin.ofNat]; omega

/-- C2 at `SUB D, H-32768` (opcode 26, r0 = 3, r1 = 7, the most negative
offset): the word is `0x1A378000` and decodes back to the same four fields. -/
theorem decodeBinRegInst_encode_roundtrip_witness :
    ((26 <<< 24) ||| (3 <<< 20) ||| (7 <<< 16) ||| ((-32768 : Int) % 2 ^ 16).toNat : Nat)
      = 0x1A378000 ∧
    decodeBinRegInst
        ((26 <<< 24) ||| (3 <<< 20) ||| (7 <<< 16) ||| ((-32768 : Int) % 2 ^ 16).toNat)
      = { opcode := 26, r0 := ⟨3, by decide⟩, r1 := ⟨7, by decide⟩, offset := -32768 } :=
  ⟨by decide,
    decodeBinRegInst_encode_roundtrip 26 3 7 (-32768) (by decide) (by decide) (by decide)
      (by decide) (by decide)⟩

/-- C3, evaluated on the code: in a 512-byte memory, `mStore(0x100, 0xABCD, 8)`
followed by `mLoad(0x100, 8)` returns `0xABCD00`, not `0xABCD`; with width 1
the byte `0xCD` comes back as `0xCD00`. -/
theorem mLoad_after_mStore_shifted :
    ((mStore (CPU.reset 0x200) 0x100 0xABCD 8).bind fun c => mLoad c 0x100 8)
      = some 0xABCD00 ∧
    ((mStore (CPU.reset 0x200) 0x100 0xABCD 1).bind fun c => mLoad c 0x100 1)
      = some 0xCD00 := by
  decide

/-- C4, evaluated on the code: with paging off and the byte `0xFF` at address
`0x100`, `LB A, (Z+0x100)` leaves `registers[A] = 0xFF00` (neither the
sign-extension `0xFFFFFFFFFFFFFFFF` nor the byte itself); with the byte `0x01`
there, `LBU A, (Z+0x100)` leaves `registers[A] = 0x100` instead of `1`. -/
theorem executeLoad_byte_not_extended :
    (executeLoad ⟨Op.LB, Reg.A, Reg.Z, 0x100⟩ (byteCpu 0x100 0xFF)).state?.map
        (fun c => c.registers Reg.A) = some 0xFF00 ∧
    (executeLoad ⟨Op.LBU, Reg.A, Reg.Z, 0x100⟩ (byteCpu 0x100 0x01)).state?.map
        (fun c => c.registers Reg.A) = some 0x100 := by
  decide

/-- C5: whenever `progressClock` returns normally, `registers[Z]` is 0 in the
state it leaves, for every starting state and memory, whatever instruction was
executed and whether or not an interrupt was taken. -/
theorem progressClock_zero_register (c c' : CPU) (h : progressClock c = .ok () c') :
    c'.registers Reg.Z = 0 := by
  unfold progressClock at h
  obtain ⟨a, c1, -, h2⟩ := Res.bind_eq_ok h
  simp only [Res.ok.injEq, true_and] at h2
  subst h2
  simp [CPU.setReg]

/-- C5 on an instruction that names `Z` as destination: the image `01 FF 00`
is executed as `MOV Z, Z+0x100`, the tick returns normally and `registers[Z]`
is 0 afterwards. -/
theorem progressClock_zero_register_witness :
    (fetchInstruction movZCpu).value? = some 0x00FF0100 ∧
    progressClock movZCpu = .ok () ((progressClock movZCpu).stateD movZCpu) ∧
    ((progressClock movZCpu).stateD movZCpu).registers Reg.Z = 0 :=
  ⟨by decide, rfl, progressClock_zero_register movZCpu _ rfl⟩

/-- C6, evaluated on the code: `ADD A, Z+1` executed with
`EFLAGS = PROTECTED_ENABLE | PAGING_ENABLE | INTERRUPT_ENABLE` and
`registers[A] = 1` completes with all three mode bits clear (`EFLAGS = 0`). -/
theorem executeBinaryRegOp_add_erases_mode_bits :
    (aluCpu 1 0 (EF.PROTECTED_ENABLE ||| EF.PAGING_ENABLE ||| EF.INTERRUPT_ENABLE)).flagSet
        EF.PROTECTED_ENABLE = true ∧
    (executeBinaryRegOp ⟨Op.ADD, Reg.A, Reg.Z, 1⟩
        (aluCpu 1 0 (EF.PROTECTED_ENABLE ||| EF.PAGING_ENABLE ||| EF.INTERRUPT_ENABLE))).state?.map
      (fun c => (c.registers Reg.A, c.eflags, c.flagSet EF.PROTECTED_ENABLE,
        c.flagSet EF.PAGING_ENABLE, c.flagSet EF.INTERRUPT_ENABLE))
      = some (2, 0, false, false, false) := by
  decide

/-- C7: for every opcode (so for each of `AND`..`SSHR`) and every state in
which `executeBinaryRegOp` completes without raising, afterwards `ZERO` is set
if and only if the value written to `registers[r0]` is 0 and `NEGATIVE` is set
if and only if bit 63 of that value is 1, whatever the flags were before. -/
theorem executeBinaryRegOp_zero_negative_flags (inst : Inst) (c c' : CPU)
    (h : executeBinaryRegOp inst c = .ok () c') :
    (c'.flagSet EF.ZERO = true ↔ c'.registers inst.r0 = 0) ∧
    (c'.flagSet EF.NEGATIVE = true ↔ (c'.registers inst.r0).testBit 63 = true) := by
  obtain ⟨v, k, hf⟩ := executeBinaryRegOp_eflags_form inst c c' h
  have hZ : EF.ZERO = 2 ^ 2 := rfl
  have hN : EF.NEGATIVE = 2 ^ 3 := rfl
  have hm : msbMask = 2 ^ 63 := rfl
  rw [hZ, hN, flagSet_eq_testBit, flagSet_eq_testBit, hf]
  simp only [Nat.testBit_or, Nat.testBit_and, Nat.testBit_two_pow_sub_one, testBit_ite_two_pow,
    hm, and_two_pow_ne_zero]
  constructor <;> simp

/-- C7 on `SUB A, B` with `registers[A] = 3`, `registers[B] = 5` and a stale
`ZERO` flag: the result is `2^64 - 2`, `ZERO` is cleared and `NEGATIVE` set. -/
theorem executeBinaryRegOp_zero_negative_flags_witness :
    (aluCpu 3 5 EF.ZERO).flagSet EF.ZERO = true ∧
    executeBinaryRegOp ⟨Op.SUB, Reg.A, Reg.B, 0⟩ (aluCpu 3 5 EF.ZERO)
      = .ok () ((executeBinaryRegOp ⟨Op.SUB, Reg.A, Reg.B, 0⟩ (aluCpu 3 5 EF.ZERO)).stateD
          (aluCpu 3 5 EF.ZERO)) ∧
    ((executeBinaryRegOp ⟨Op.SUB, Reg.A, Reg.B, 0⟩ (aluCpu 3 5 EF.ZERO)).stateD
        (aluCpu 3 5 EF.ZERO)).registers Reg.A = 2 ^ 64 - 2 ∧
    ((executeBinaryRegOp ⟨Op.SUB, Reg.A, Reg.B, 0⟩ (aluCpu 3 5 EF.ZERO)).stateD
        (aluCpu 3 5 EF.ZERO)).flagSet EF.ZERO = false ∧
    ((executeBinaryRegOp ⟨Op.SUB, Reg.A, Reg.B, 0⟩ (aluCpu 3 5 EF.ZERO)).stateD
        (aluCpu 3 5 EF.ZERO)).flagSet EF.NEGATIVE = true :=
  have h := executeBinaryRegOp_zero_negative_flags ⟨Op.SUB, Reg.A, Reg.B, 0⟩
    (aluCpu 3 5 EF.ZERO) _ rfl
  ⟨by decide, rfl, by decide,
    Bool.eq_false_iff.2 (fun hz => absurd (h.1.1 hz) (by decide)),
    h.2.2 (by decide)⟩

/-- C8: for `ADD` with `o1 = registers[r0]` (a 64-bit value) and
`o2 = registers[r1] + offset` (mod 2^64), the operation completes with
`registers[r0] = (o1 + o2) mod 2^64`; `CARRY` is set whenever
`o1 + o2 >= 2^64`, `OVERFLOW` is set whenever the signed sum lies outside
`[-2^63, 2^63 - 1]`, and a flag that was clear before stays clear when its
condition does not hold.  In particular `UINT64_MAX + 1` sets `CARRY` and
`ZERO` and clears `NEGATIVE`, and `INT64_MAX + 1` sets `OVERFLOW` and
`NEGATIVE`. -/
theorem executeBinaryRegOp_add_flags (inst : Inst) (c : CPU) (o1 o2 : Nat)
    (hop : inst.opcode = Op.ADD)
    (ho1 : c.registers inst.r0 = o1)
    (ho2 : (c.registers inst.r1 + toU64 inst.offset) % 2 ^ 64 = o2)
    (hwf : c.registers inst.r0 < 2 ^ 64) :
    ∃ c', executeBinaryRegOp inst c = .ok () c' ∧
      c'.registers inst.r0 = (o1 + o2) % 2 ^ 64 ∧
      (2 ^ 64 ≤ o1 + o2 → c'.flagSet EF.CARRY = true) ∧
      ((toS64 o1 + toS64 o2 < -(2 ^ 63) ∨ 2 ^ 63 - 1 < toS64 o1 + toS64 o2) →
        c'.flagSet EF.OVERFLOW = true) ∧
      (c.flagSet EF.CARRY = false → o1 + o2 < 2 ^ 64 → c'.flagSet EF.CARRY = false) ∧
      (c.flagSet EF.OVERFLOW = false →
        (-(2 ^ 63) ≤ toS64 o1 + toS64 o2 ∧ toS64 o1 + toS64 o2 ≤ 2 ^ 63 - 1) →
        c'.flagSet EF.OVERFLOW = false) ∧
      (o1 = UINT64_MAX → o2 = 1 →
        c'.flagSet EF.CARRY = true ∧ c'.flagSet EF.ZERO = true ∧
          c'.flagSet EF.NEGATIVE = false) ∧
      (o1 = 2 ^ 63 - 1 → o2 = 1 →
        c'.flagSet EF.OVERFLOW = true ∧ c'.flagSet EF.NEGATIVE = true) := by
  obtain ⟨c', hc', hreg, hfl⟩ := executeBinaryRegOp_ADD_eq inst c hop
  rw [ho2, ho1] at hreg hfl
  rw [ho1] at hwf
  have h2 : o2 < 2 ^ 64 := by rw [← ho2]; exact Nat.mod_lt _ (by decide)
  have hC : EF.CARRY = 2 ^ 0 := rfl
  have hO : EF.OVERFLOW = 2 ^ 1 := rfl
  have hZ : EF.ZERO = 2 ^ 2 := rfl
  have hN : EF.NEGATIVE = 2 ^ 3 := rfl
  have hov := didOverflow_add o1 o2 hwf h2
  have hneg : ((o1 + o2) % 2 ^ 64 &&& msbMask ≠ 0) ↔ 2 ^ 63 ≤ (o1 + o2) % 2 ^ 64 := by
    rw [and_msbMask _ (Nat.mod_lt _ (by decide))]
    split <;> omega
  obtain ⟨r, hr⟩ : ∃ r, r = (o1 + o2) % 2 ^ 64 := ⟨_, rfl⟩
  rw [← hr] at hfl hov hneg
  have bit : ∀ i, c'.eflags.testBit i =
      ((c.eflags.testBit i && decide (i < 2))
        || (didOverflow o1 o2 r && decide (1 = i))
        || (decide (r < o1) && decide (0 = i))
        || (decide (r = 0) && decide (2 = i))
        || (decide (2 ^ 63 ≤ r) && decide (3 = i))) := by
    intro i
    rw [hfl]
    simp only [Nat.testBit_or, Nat.testBit_and, Nat.testBit_two_pow_sub_one,
      testBit_ite_two_pow, Bool.decide_eq_true, hneg]
  have bC : c'.flagSet EF.CARRY = (c.flagSet EF.CARRY || decide (r < o1)) := by
    rw [hC, flagSet_eq_testBit, flagSet_eq_testBit, bit]; simp
  have bO : c'.flagSet EF.OVERFLOW = (c.flagSet EF.OVERFLOW || didOverflow o1 o2 r) := by
    rw [hO, flagSet_eq_testBit, flagSet_eq_testBit, bit]; simp
  have bZ : c'.flagSet EF.ZERO = decide (r = 0) := by
    rw [hZ, flagSet_eq_testBit, bit]; simp
  have bN : c'.flagSet EF.NEGATIVE = decide (2 ^ 63 ≤ r) := by
    rw [hN, flagSet_eq_testBit, bit]; simp
  refine ⟨c', hc', hreg, ?_, ?_, ?_, ?_, ?_, ?_⟩
  · intro h
    have : r < o1 := by omega
    rw [bC, decide_eq_true this, Bool.or_true]
  · intro h
    rw [bO, hov.2 h, Bool.or_true]
  · intro hc h
    have : ¬ r < o1 := by omega
    rw [bC, hc, decide_eq_false this]; rfl
  · intro hc h
    have : ¬ didOverflow o1 o2 r = true := by
      rw [hov]; omega
    rw [bO, hc, Bool.eq_false_iff.2 this]; rfl
  · intro e1 e2
    have e3 : r = 0 := by rw [hr, e1, e2]; rfl
    have e4 : r < o1 := by rw [e3, e1]; decide
    rw [bC, bZ, bN, decide_eq_true e4, decide_eq_true e3, Bool.or_true]
    refine ⟨rfl, rfl, ?_⟩
    rw [decide_eq_false_iff_not, e3]; decide
  · intro e1 e2
    have e3 : r = 2 ^ 63 := by rw [hr, e1, e2]; rfl
    have e4 : didOverflow o1 o2 r = true := by rw [e3, e1, e2]; decide
    rw [bO, bN, e4, Bool.or_true]
    refine ⟨rfl, ?_⟩
    rw [decide_eq_true_iff, e3]

/-- C8 on `ADD A, B` with `registers[A] = UINT64_MAX`, `registers[B] = 1` and
`EFLAGS = 0`: the sum wraps to 0, `CARRY` and `ZERO` are set and `NEGATIVE` and
`OVERFLOW` are clear. -/
theorem executeBinaryRegOp_add_flags_witness :
    (aluCpu UINT64_MAX 1 0).registers Reg.A < 2 ^ 64 ∧
    ∃ c', executeBinaryRegOp ⟨Op.ADD, Reg.A, Reg.B, 0⟩ (aluCpu UINT64_MAX 1 0) = .ok () c' ∧
      c'.registers Reg.A = 0 ∧ c'.flagSet EF.CARRY = true ∧ c'.flagSet EF.ZERO = true ∧
      c'.flagSet EF.NEGATIVE = false ∧ c'.flagSet EF.OVERFLOW = false := by
  obtain ⟨c', h, hr, _, _, _, ho, hp, _⟩ :=
    executeBinaryRegOp_add_flags ⟨Op.ADD, Reg.A, Reg.B, 0⟩ (aluCpu UINT64_MAX 1 0)
      UINT64_MAX 1 rfl rfl (by decide) (by decide)
  exact ⟨by decide, c', h, hr.trans (by decide), (hp rfl rfl).1, (hp rfl rfl).2.1,
    (hp rfl rfl).2.2, ho (by decide) (by decide)⟩

/-- C9, evaluated on the code: with `OVERFLOW` clear beforehand, `SUB` of
`5 - 10` (signed difference `-5`, in range) completes with `OVERFLOW` set, and
`SUB` of `INT64_MIN - 1` (signed difference `-2^63 - 1`, out of range)
completes with `OVERFLOW` clear. -/
theorem executeBinaryRegOp_sub_overflow_inverted :
    (executeBinaryRegOp ⟨Op.SUB, Reg.A, Reg.B, 0⟩ (aluCpu 5 10 0)).state?.map
        (fun c => (c.registers Reg.A, c.flagSet EF.OVERFLOW))
      = some (2 ^ 64 - 5, true) ∧
    (executeBinaryRegOp ⟨Op.SUB, Reg.A, Reg.B, 0⟩ (aluCpu (2 ^ 63) 1 0)).state?.map
        (fun c => (c.registers Reg.A, c.flagSet EF.OVERFLOW))
      = some (2 ^ 63 - 1, false) ∧
    toS64 5 - toS64 10 = -5 ∧ toS64 (2 ^ 63) - toS64 1 = -(2 ^ 63) - 1 := by
  decide

/-- C10, evaluated on the code: `SSHR` of `0x8000000000000000` by 1 evaluates
`UINT64_MAX << std::max<uint64_t>(64, 63)`, a shift by the full width, so the
operation has no defined result (and the claimed `0xC000000000000000` is not
produced); on a value with bit 63 clear the shift is the plain logical one. -/
theorem executeBinaryRegOp_sshr_msb_undefined :
    max 64 ((64 + 2 ^ 64 - 1) % 2 ^ 64) = 64 ∧ shl64 UINT64_MAX 64 = none ∧
    (executeBinaryRegOp ⟨Op.SSHR, Reg.A, Reg.B, 0⟩ (aluCpu 0x8000000000000000 1 0)).isUndefined
      = true ∧
    (executeBinaryRegOp ⟨Op.SSHR, Reg.A, Reg.B, 0⟩ (aluCpu 0x4000000000000000 1 0)).state?.map
        (fun c => c.registers Reg.A) = some 0x2000000000000000 := by
  decide

theorem progressClock_commit (c : CPU) :
    progressClock c =
      (match (fetchInstruction c).bind fun instruction c => dispatchInstruction instruction c with
        | .interrupt i c => handleInterrupt i c
        | r => r).bind fun _ c => .ok () ((commitIp c).setReg Reg.Z 0) := rfl

/-- C11: for `DIV` and `SDIV`, whenever `o2 = registers[r1] + offset` is 0,
`executeBinaryRegOp` raises `ALU_FAULT` (code 2, info 0) and the state at the
throw has every entry of `registers` (and every memory byte) as before the
instruction. -/
theorem executeBinaryRegOp_div_by_zero (inst : Inst) (c : CPU)
    (hop : inst.opcode = Op.DIV ∨ inst.opcode = Op.SDIV)
    (h0 : (c.registers inst.r1 + toU64 inst.offset) % 2 ^ 64 = 0) :
    ∃ c', executeBinaryRegOp inst c = .interrupt ⟨IntCode.ALU_FAULT, 0⟩ c' ∧
      IntCode.ALU_FAULT = 0x02 ∧ c'.registers = c.registers ∧ c'.memory = c.memory := by
  refine ⟨c.andFlags (EF.CARRY ||| EF.OVERFLOW), ?_, rfl, rfl, rfl⟩
  show (binaryRegOpSwitch inst _ _ _).bind _ = _
  rw [h0]
  unfold binaryRegOpSwitch
  rcases hop with hop | hop
  · rw [if_neg (by rw [hop]; decide), if_neg (by rw [hop]; decide),
      if_neg (by rw [hop]; decide), if_neg (by rw [hop]; decide), if_pos hop, if_pos rfl]
    rfl
  · rw [if_neg (by rw [hop]; decide), if_neg (by rw [hop]; decide),
      if_neg (by rw [hop]; decide), if_neg (by rw [hop]; decide),
      if_neg (by rw [hop]; decide), if_pos hop, if_pos rfl]
    rfl

/-- C11 on `DIV A, B` with `registers[A] = 7` and `registers[B] = 0`. -/
theorem executeBinaryRegOp_div_by_zero_witness :
    ((aluCpu 7 0 0).registers Reg.B + toU64 0) % 2 ^ 64 = 0 ∧
    ∃ c', executeBinaryRegOp ⟨Op.DIV, Reg.A, Reg.B, 0⟩ (aluCpu 7 0 0)
        = .interrupt ⟨IntCode.ALU_FAULT, 0⟩ c' ∧
      c'.registers Reg.A = 7 ∧ c'.registers Reg.B = 0 := by
  obtain ⟨c', h, -, hr, -⟩ :=
    executeBinaryRegOp_div_by_zero ⟨Op.DIV, Reg.A, Reg.B, 0⟩ (aluCpu 7 0 0) (Or.inl rfl)
      (by decide)
  exact ⟨by decide, c', h, by rw [hr]; decide, by rw [hr]; decide⟩

theorem executeConditional_eq (inst : Inst) (c : CPU)
    (hop : inst.opcode = Op.JMP ∨ inst.opcode = Op.JLT ∨ inst.opcode = Op.JGT ∨
      inst.opcode = Op.JZR ∨ inst.opcode = Op.JIF) :
    ∃ b : Bool, executeConditional inst c
        = .ok () { c with nip := (c.registers inst.r1 + toU64 inst.offset) % 2 ^ 64,
                          nipSet := b } ∧
      (b = true ↔ takenPerSpec inst c) := by
  unfold takenPerSpec
  rcases hop with hop | hop | hop | hop | hop
  · exact ⟨true, by unfold executeConditional; rw [if_pos hop], by simp [hop]⟩
  · refine ⟨c.flagSet EF.NEGATIVE, by
      unfold executeConditional
      rw [if_neg (by rw [hop]; decide), if_neg (by rw [hop]; decide), if_pos hop]
      rfl, ?_⟩
    simp [hop, Op.JLT, Op.JMP, Op.JGT, Op.JZR, Op.JIF]
  · refine ⟨!(c.flagSet EF.ZERO || c.flagSet EF.NEGATIVE), by
      unfold executeConditional
      rw [if_neg (by rw [hop]; decide), if_pos hop]
      rfl, ?_⟩
    simp [hop, Op.JLT, Op.JMP, Op.JGT, Op.JZR, Op.JIF]
  · refine ⟨c.flagSet EF.ZERO, by
      unfold executeConditional
      rw [if_neg (by rw [hop]; decide), if_neg (by rw [hop]; decide),
        if_neg (by rw [hop]; decide), if_pos hop]
      rfl, ?_⟩
    simp [hop, Op.JLT, Op.JMP, Op.JGT, Op.JZR, Op.JIF]
  · refine ⟨decide (c.registers inst.r0 ≠ 0), by
      unfold executeConditional
      rw [if_neg (by rw [hop]; decide), if_neg (by rw [hop]; decide),
        if_neg (by rw [hop]; decide), if_neg (by rw [hop]; decide), if_pos hop], ?_⟩
    simp [hop, Op.JLT, Op.JMP, Op.JGT, Op.JZR, Op.JIF]

/-- C12: for every state and every instruction with opcode `JMP`, `JLT`,
`JGT`, `JZR` or `JIF`, `executeConditional` completes, and the IP-commit step
of `progressClock` applied to its result sets `IP` to `registers[r1] + offset`
(mod 2^64) when the branch is taken according to the table of the
specification, and to `IP + 4` (mod 2^64) otherwise. -/
theorem executeConditional_commit (inst : Inst) (c : CPU)
    (hop : inst.opcode = Op.JMP ∨ inst.opcode = Op.JLT ∨ inst.opcode = Op.JGT ∨
      inst.opcode = Op.JZR ∨ inst.opcode = Op.JIF) :
    ∃ c', executeConditional inst c = .ok () c' ∧
      (takenPerSpec inst c →
        (commitIp c').ip = (c.registers inst.r1 + toU64 inst.offset) % 2 ^ 64) ∧
      (¬ takenPerSpec inst c → (commitIp c').ip = (c.ip + 4) % 2 ^ 64) := by
  obtain ⟨b, hb, ht⟩ := executeConditional_eq inst c hop
  refine ⟨_, hb, ?_, ?_⟩
  · intro h
    rw [ht.2 h]; rfl
  · intro h
    have : b = false := by
      cases b
      · rfl
      · exact absurd (ht.1 rfl) h
    rw [this]; rfl

/-- C12 on the scenario of the specification: `SUB A, A` sets `ZERO`, and
`JZR (Z+0x20)` executed on the resulting state, followed by the IP-commit
step, gives `IP = 0x20`. -/
theorem executeConditional_commit_witness :
    ((executeBinaryRegOp ⟨Op.SUB, Reg.A, Reg.A, 0⟩ (aluCpu 5 0 0)).stateD (aluCpu 5 0 0)).flagSet
        EF.ZERO = true ∧
    ∃ c', executeConditional ⟨Op.JZR, Reg.A, Reg.Z, 0x20⟩
          ((executeBinaryRegOp ⟨Op.SUB, Reg.A, Reg.A, 0⟩ (aluCpu 5 0 0)).stateD (aluCpu 5 0 0))
        = .ok () c' ∧ (commitIp c').ip = 0x20 := by
  obtain ⟨c', h, ht, -⟩ := executeConditional_commit ⟨Op.JZR, Reg.A, Reg.Z, 0x20⟩
    ((executeBinaryRegOp ⟨Op.SUB, Reg.A, Reg.A, 0⟩ (aluCpu 5 0 0)).stateD (aluCpu 5 0 0))
    (Or.inr (Or.inr (Or.inr (Or.inl rfl))))
  refine ⟨by decide, c', h, ?_⟩
  rw [ht (Or.inr (Or.inr (Or.inr (Or.inl ⟨rfl, by decide⟩))))]
  decide

theorem dispatchInstruction_push_pop (w : Nat) (c : CPU)
    (h : (decodeBinRegInst w).opcode = Op.PUSH ∨ (decodeBinRegInst w).opcode = Op.POP) :
    dispatchInstruction w c = .ok () c := by
  unfold dispatchInstruction
  simp only []
  rcases h with h | h
  · rw [if_neg (by rw [h]; decide), if_neg (by rw [h]; decide), if_neg (by rw [h]; decide),
      if_neg (by rw [h]; decide), if_neg (by rw [h]; decide), if_pos (by rw [h]; decide)]
    unfold executeMisc
    rw [if_neg (by rw [h]; decide), if_neg (by rw [h]; decide), if_neg (by rw [h]; decide)]
  · rw [if_neg (by rw [h]; decide), if_neg (by rw [h]; decide), if_neg (by rw [h]; decide),
      if_neg (by rw [h]; decide), if_neg (by rw [h]; decide), if_pos (by rw [h]; decide)]
    unfold executeMisc
    rw [if_neg (by rw [h]; decide), if_neg (by rw [h]; decide), if_neg (by rw [h]; decide)]

set_option maxRecDepth 4096 in
/-- C13, evaluated on the code: with `registers[A] = 0xABCD`, `SP = 0x100` and
paging off, dispatching `PUSH A` (opcode 13) completes with `SP` still `0x100`
and the bytes at `0xF8` and `0xF9` still 0; dispatching `POP B` after it leaves
`registers[B] = 0`.  `executeStack` itself, which the dispatcher never calls,
pops `0xABCD00` for the pushed `0xABCD`. -/
theorem dispatchInstruction_push_pop_ignored :
    (decodeBinRegInst (encodeWord Op.PUSH 0 0 0)).opcode = Op.PUSH ∧
    (decodeBinRegInst (encodeWord Op.POP 1 0 0)).opcode = Op.POP ∧
    (dispatchInstruction (encodeWord Op.PUSH 0 0 0) stackCpu).state?.map
        (fun c => (c.registers Reg.SP, c.memory 0xF8, c.memory 0xF9)) = some (0x100, 0, 0) ∧
    ((dispatchInstruction (encodeWord Op.PUSH 0 0 0) stackCpu).bind fun _ c =>
        dispatchInstruction (encodeWord Op.POP 1 0 0) c).state?.map
        (fun c => (c.registers Reg.SP, c.registers Reg.B)) = some (0x100, 0) ∧
    ((executeStack ⟨Op.PUSH, 0, 0, 0⟩ stackCpu).bind fun _ c =>
        executeStack ⟨Op.POP, 1, 0, 0⟩ c).state?.map
        (fun c => (c.registers Reg.SP, c.registers Reg.B)) = some (0x100, 0xABCD00) := by
  decide

theorem Res.bind_code {α β : Type} {r : Res α} {f : α → CPU → Res β} {k : Nat}
    (h1 : ∀ i c', r = .interrupt i c' → i.code = k)
    (h2 : ∀ a c i c', f a c = .interrupt i c' → i.code = k) :
    ∀ i c', r.bind f = .interrupt i c' → i.code = k := by
  intro i c' h
  cases r with
  | ok a c => exact h2 a c i c' h
  | interrupt j c =>
    simp only [Res.bind, Res.interrupt.injEq] at h
    rw [← h.1]; exact h1 j c rfl
  | doubleFault c => simp [Res.bind] at h
  | undefined => simp [Res.bind] at h

theorem Res.ofOption_code {α : Type} (o : Option α) (c : CPU) (k : Nat) :
    ∀ i c', Res.ofOption o c = .interrupt i c' → i.code = k := by
  intro i c' h
  cases o <;> simp [Res.ofOption] at h

theorem Res.ofState_code (o : Option CPU) (k : Nat) :
    ∀ i c', Res.ofState o = .interrupt i c' → i.code = k := by
  intro i c' h
  cases o <;> simp [Res.ofState] at h

theorem getPageMap_code (address : Nat) (write jump : Bool) (entry : Nat) (c : CPU) :
    ∀ i c', getPageMap address write jump entry c = .interrupt i c' →
      i.code = IntCode.PAGE_FAULT := by
  intro i c' h
  have key : ∀ e : Nat,
      (if e ≠ 0 then
          (Res.interrupt ⟨IntCode.PAGE_FAULT, (address &&& 0xFFFFFFFF) ||| (e <<< 32)⟩ c :
            Res Nat)
        else .ok (entry &&& PE.FRAME) c) = .interrupt i c' → i.code = IntCode.PAGE_FAULT := by
    intro e he
    split at he
    · injection he with h1 _
      rw [← h1]
    · cases he
  exact key _ h

/-- Every interrupt thrown by `resolveAddress` is a `PAGE_FAULT`. -/
theorem resolveAddress_code (addr : Nat) (write jump : Bool) (c : CPU) :
    ∀ i c', resolveAddress addr write jump c = .interrupt i c' →
      i.code = IntCode.PAGE_FAULT := by
  unfold resolveAddress
  simp only []
  split
  · intro i c' h; cases h
  · refine Res.bind_code (Res.ofOption_code _ _ _) fun v c1 => ?_
    refine Res.bind_code (getPageMap_code _ _ _ _ _) fun pageTable c2 => ?_
    refine Res.bind_code (Res.ofOption_code _ _ _) fun v2 c3 => ?_
    refine Res.bind_code (getPageMap_code _ _ _ _ _) fun frame c4 => ?_
    intro i c' h
    split at h
    · cases h
    · split at h <;> cases h

theorem executeLoad_code (inst : Inst) (c : CPU) :
    ∀ i c', executeLoad inst c = .interrupt i c' → i.code = IntCode.PAGE_FAULT := by
  unfold executeLoad
  simp only []
  refine Res.bind_code (resolveAddress_code _ _ _ _) fun pa c1 => ?_
  intro i c' h
  split at h <;> cases h

theorem executeStore_code (inst : Inst) (c : CPU) :
    ∀ i c', executeStore inst c = .interrupt i c' → i.code = IntCode.PAGE_FAULT := by
  unfold executeStore
  simp only []
  refine Res.bind_code (resolveAddress_code _ _ _ _) fun pa c1 => ?_
  intro i c' h
  split at h
  · exact Res.ofState_code _ _ i c' h
  · split at h
    · exact Res.ofState_code _ _ i c' h
    · split at h
      · exact Res.ofState_code _ _ i c' h
      · split at h
        · exact Res.ofState_code _ _ i c' h
        · cases h

theorem binaryRegOpSwitch_code (inst : Inst) (o1 o2 : Nat) (c : CPU) :
    ∀ i c', binaryRegOpSwitch inst o1 o2 c = .interrupt i c' → i.code = IntCode.ALU_FAULT := by
  intro i c' h
  unfold binaryRegOpSwitch at h
  by_cases h1 : inst.opcode = Op.ADD
  · rw [if_pos h1] at h; cases h
  rw [if_neg h1] at h
  by_cases h2 : inst.opcode = Op.SUB
  · rw [if_pos h2] at h; cases h
  rw [if_neg h2] at h
  by_cases h3 : inst.opcode = Op.MUL
  · rw [if_pos h3] at h; cases h
  rw [if_neg h3] at h
  by_cases h4 : inst.opcode = Op.SMUL
  · rw [if_pos h4] at h
    split at h <;> cases h
  rw [if_neg h4] at h
  by_cases h5 : inst.opcode = Op.DIV
  · rw [if_pos h5] at h
    split at h
    · injection h with e _; rw [← e]
    · cases h
  rw [if_neg h5] at h
  by_cases h6 : inst.opcode = Op.SDIV
  · rw [if_pos h6] at h
    split at h
    · injection h with e _; rw [← e]
    · split at h <;> cases h
  rw [if_neg h6] at h
  by_cases h7 : inst.opcode = Op.SSHR
  · rw [if_pos h7] at h
    split at h
    · split at h <;> cases h
    · exact Res.ofOption_code _ _ _ i c' h
  rw [if_neg h7] at h
  by_cases h8 : inst.opcode = Op.AND
  · rw [if_pos h8] at h; cases h
  rw [if_neg h8] at h
  by_cases h9 : inst.opcode = Op.OR
  · rw [if_pos h9] at h; cases h
  rw [if_neg h9] at h
  by_cases h10 : inst.opcode = Op.XOR
  · rw [if_pos h10] at h; cases h
  rw [if_neg h10] at h
  by_cases h11 : inst.opcode = Op.SHL
  · rw [if_pos h11] at h
    exact Res.ofOption_code _ _ _ i c' h
  rw [if_neg h11] at h
  by_cases h12 : inst.opcode = Op.SHR
  · rw [if_pos h12] at h
    exact Res.ofOption_code _ _ _ i c' h
  rw [if_neg h12] at h
  cases h

/-- Every interrupt thrown by `executeBinaryRegOp` is an `ALU_FAULT`. -/
theorem executeBinaryRegOp_code (inst : Inst) (c : CPU) :
    ∀ i c', executeBinaryRegOp inst c = .interrupt i c' → i.code = IntCode.ALU_FAULT := by
  show ∀ i c', (binaryRegOpSwitch inst _ _ _).bind _ = .interrupt i c' → _
  refine Res.bind_code (binaryRegOpSwitch_code _ _ _ _) fun result c1 => ?_
  intro i c' h
  cases h

theorem executeConditional_code (inst : Inst) (c : CPU) (k : Nat) :
    ∀ i c', executeConditional inst c = .interrupt i c' → i.code = k := by
  intro i c' h
  unfold executeConditional at h
  simp only [] at h
  split at h
  · cases h
  · split at h
    · cases h
    · split at h
      · cases h
      · split at h
        · cases h
        · split at h <;> cases h

theorem stackPop_code (c : CPU) (k : Nat) :
    ∀ i c', stackPop c = .interrupt i c' → i.code = k := by
  unfold stackPop
  refine Res.bind_code (Res.ofOption_code _ _ _) fun v c1 => ?_
  intro i c' h
  cases h

theorem executePriviliged_code (inst : Inst) (c : CPU) (k : Nat)
    (hp : c.flagSet EF.PROTECTED_ENABLE = false) :
    ∀ i c', executePriviliged inst c = .interrupt i c' → i.code = k := by
  unfold executePriviliged
  rw [if_neg (by rw [hp]; decide)]
  split
  · intro i c' h; cases h
  · split
    · refine Res.bind_code (stackPop_code _ _) fun v c1 => ?_
      refine Res.bind_code (stackPop_code _ _) fun v2 c2 => ?_
      intro i c' h
      cases h
    · intro i c' h; cases h

/-- `dispatchInstruction` by opcode class, the opcodes written as numbers. -/
theorem dispatchInstruction_cases (w : Nat) (c : CPU) (d : Inst)
    (hd : decodeBinRegInst w = d) :
    (2 ≤ d.opcode ∧ d.opcode ≤ 8 → dispatchInstruction w c = executeLoad d c) ∧
    (9 ≤ d.opcode ∧ d.opcode ≤ 12 → dispatchInstruction w c = executeStore d c) ∧
    (20 ≤ d.opcode ∧ d.opcode ≤ 31 → dispatchInstruction w c = executeBinaryRegOp d c) ∧
    (15 ≤ d.opcode ∧ d.opcode ≤ 19 → dispatchInstruction w c = executeConditional d c) ∧
    (33 ≤ d.opcode ∧ d.opcode ≤ 34 → dispatchInstruction w c = executePriviliged d c) ∧
    ((d.opcode ≤ 1 ∨ d.opcode = 13 ∨ d.opcode = 14 ∨ d.opcode = 32) →
      dispatchInstruction w c = executeMisc d c) ∧
    (35 ≤ d.opcode →
      dispatchInstruction w c = .interrupt ⟨IntCode.INSTRUCTION_FAULT, 0x0⟩ c) := by
  unfold dispatchInstruction
  simp only [hd, Op.LB, Op.LD, Op.SB, Op.SD, Op.AND, Op.SSHR, Op.JMP, Op.JIF, Op.PMOV, Op.IRET,
    ge_iff_le]
  refine ⟨?_, ?_, ?_, ?_, ?_, ?_, ?_⟩
  · intro h
    rw [if_pos h]
  · intro h
    rw [if_neg (by omega), if_pos h]
  · intro h
    rw [if_neg (by omega), if_neg (by omega), if_pos h]
  · intro h
    rw [if_neg (by omega), if_neg (by omega), if_neg (by omega), if_pos h]
  · intro h
    rw [if_neg (by omega), if_neg (by omega), if_neg (by omega), if_neg (by omega), if_pos h]
  · intro h
    rw [if_neg (by omega), if_neg (by omega), if_neg (by omega), if_neg (by omega),
      if_neg (by omega), if_pos (by omega)]
  · intro h
    rw [if_neg (by omega), if_neg (by omega), if_neg (by omega), if_neg (by omega),
      if_neg (by omega), if_neg (by omega)]

theorem executeMisc_quiet (d : Inst) (c : CPU)
    (h : d.opcode ≤ 1 ∨ d.opcode = 13 ∨ d.opcode = 14) :
    ∃ c', executeMisc d c = .ok () c' := by
  unfold executeMisc
  simp only [Op.MOV, Op.GEF, Op.INT]
  by_cases h0 : d.opcode = 0
  · rw [if_pos h0]; exact ⟨_, rfl⟩
  · rw [if_neg h0]
    by_cases h1 : d.opcode = 1
    · rw [if_pos h1]; exact ⟨_, rfl⟩
    · rw [if_neg h1, if_neg (by omega)]; exact ⟨_, rfl⟩

theorem executeMisc_int (d : Inst) (c : CPU) (h : d.opcode = 32) :
    executeMisc d c =
      if (c.registers d.r1 + toU64 d.offset) % 2 ^ 64 < 0xA0 ∨
          0xFF < (c.registers d.r1 + toU64 d.offset) % 2 ^ 64 then
        .interrupt ⟨IntCode.INSTRUCTION_FAULT, 0x3⟩ c
      else .interrupt ⟨(c.registers d.r1 + toU64 d.offset) % 2 ^ 64 % 2 ^ 8, 0x0⟩ c := by
  unfold executeMisc
  simp only [Op.MOV, Op.GEF, Op.INT]
  rw [if_neg (by omega), if_neg (by omega), if_pos h]
  rfl

/-- C14: `dispatchInstruction` raises `INSTRUCTION_FAULT` if and only if (a)
the decoded opcode is greater than `IRET`, or (b) it is `PMOV` or `IRET` and
`PROTECTED_ENABLE` is set, or (c) it is `INT` and `registers[r1] + offset` is
outside `0xA0..0xFF`; the info is 0 in case (a) and 3 in cases (b) and (c), and
in all three the state at the throw is the state before the instruction; an
`INT` whose code is inside `0xA0..0xFF` raises exactly that code. -/
theorem dispatchInstruction_instruction_fault (w : Nat) (c : CPU) (d : Inst) (code : Nat)
    (hd : decodeBinRegInst w = d)
    (hcode : (c.registers d.r1 + toU64 d.offset) % 2 ^ 64 = code) :
    ((∃ info c', dispatchInstruction w c
          = .interrupt ⟨IntCode.INSTRUCTION_FAULT, info⟩ c') ↔
      (Op.IRET < d.opcode ∨
        ((d.opcode = Op.PMOV ∨ d.opcode = Op.IRET) ∧ c.flagSet EF.PROTECTED_ENABLE = true) ∨
        (d.opcode = Op.INT ∧ (code < 0xA0 ∨ 0xFF < code)))) ∧
    (Op.IRET < d.opcode →
      dispatchInstruction w c = .interrupt ⟨IntCode.INSTRUCTION_FAULT, 0⟩ c) ∧
    ((d.opcode = Op.PMOV ∨ d.opcode = Op.IRET) → c.flagSet EF.PROTECTED_ENABLE = true →
      dispatchInstruction w c = .interrupt ⟨IntCode.INSTRUCTION_FAULT, 0x3⟩ c) ∧
    (d.opcode = Op.INT → (code < 0xA0 ∨ 0xFF < code) →
      dispatchInstruction w c = .interrupt ⟨IntCode.INSTRUCTION_FAULT, 0x3⟩ c) ∧
    (d.opcode = Op.INT → 0xA0 ≤ code → code ≤ 0xFF →
      dispatchInstruction w c = .interrupt ⟨code, 0⟩ c) := by
  obtain ⟨hL, hS, hA, hC, hP, hM, hU⟩ := dispatchInstruction_cases w c d hd
  simp only [Op.IRET, Op.PMOV, Op.INT]
  have fA : 34 < d.opcode →
      dispatchInstruction w c = .interrupt ⟨IntCode.INSTRUCTION_FAULT, 0⟩ c :=
    fun h => hU (by omega)
  have fB : (d.opcode = 33 ∨ d.opcode = 34) → c.flagSet EF.PROTECTED_ENABLE = true →
      dispatchInstruction w c = .interrupt ⟨IntCode.INSTRUCTION_FAULT, 0x3⟩ c := by
    intro h hp
    rw [hP (by omega)]
    unfold executePriviliged
    rw [if_pos hp]
  have fC : d.opcode = 32 → (code < 0xA0 ∨ 0xFF < code) →
      dispatchInstruction w c = .interrupt ⟨IntCode.INSTRUCTION_FAULT, 0x3⟩ c := by
    intro h ho
    rw [hM (by omega), executeMisc_int d c h, hcode, if_pos ho]
  have fD : d.opcode = 32 → 0xA0 ≤ code → code ≤ 0xFF →
      dispatchInstruction w c = .interrupt ⟨code, 0⟩ c := by
    intro h h1 h2
    rw [hM (by omega), executeMisc_int d c h, hcode, if_neg (by omega),
      Nat.mod_eq_of_lt (by omega)]
  refine ⟨⟨?_, ?_⟩, fA, fB, fC, fD⟩
  · rintro ⟨info, c', h⟩
    have e1 : IntCode.INSTRUCTION_FAULT ≠ IntCode.PAGE_FAULT := by decide
    have e2 : IntCode.INSTRUCTION_FAULT ≠ IntCode.ALU_FAULT := by decide
    by_cases g1 : 2 ≤ d.opcode ∧ d.opcode ≤ 8
    · rw [hL g1] at h
      exact absurd (executeLoad_code d c _ _ h) e1
    by_cases g2 : 9 ≤ d.opcode ∧ d.opcode ≤ 12
    · rw [hS g2] at h
      exact absurd (executeStore_code d c _ _ h) e1
    by_cases g3 : 20 ≤ d.opcode ∧ d.opcode ≤ 31
    · rw [hA g3] at h
      exact absurd (executeBinaryRegOp_code d c _ _ h) e2
    by_cases g4 : 15 ≤ d.opcode ∧ d.opcode ≤ 19
    · rw [hC g4] at h
      exact absurd (executeConditional_code d c 0 _ _ h) e1
    by_cases g5 : 33 ≤ d.opcode ∧ d.opcode ≤ 34
    · by_cases hp : c.flagSet EF.PROTECTED_ENABLE = true
      · exact Or.inr (Or.inl ⟨by omega, hp⟩)
      · rw [hP g5] at h
        exact absurd (executePriviliged_code d c 0 (by simpa using hp) _ _ h) e1
    by_cases g6 : 35 ≤ d.opcode
    · exact Or.inl (by omega)
    by_cases g7 : d.opcode = 32
    · by_cases ho : code < 0xA0 ∨ 0xFF < code
      · exact Or.inr (Or.inr ⟨g7, ho⟩)
      · rw [fD g7 (by omega) (by omega)] at h
        injection h with h1 _
        injection h1 with h2 _
        simp only [IntCode.INSTRUCTION_FAULT] at h2
        omega
    · obtain ⟨c1, hq⟩ := executeMisc_quiet d c (by omega)
      rw [hM (by omega), hq] at h
      cases h
  · rintro (h | ⟨h, hp⟩ | ⟨h, ho⟩)
    · exact ⟨_, _, fA h⟩
    · exact ⟨_, _, fB h hp⟩
    · exact ⟨_, _, fC h ho⟩

/-- C14 on three words over the state `entryCpu` (protection off) and the same
state with `PROTECTED_ENABLE` set: opcode 35 faults with info 0, `IRET` in
user mode faults with info 3, and `INT` with code `0xA5` raises `0xA5`. -/
theorem dispatchInstruction_instruction_fault_witness :
    (decodeBinRegInst (encodeWord 35 0 0 0)).opcode = 35 ∧
    dispatchInstruction (encodeWord 35 0 0 0) entryCpu
      = .interrupt ⟨IntCode.INSTRUCTION_FAULT, 0⟩ entryCpu ∧
    dispatchInstruction (encodeWord Op.IRET 0 0 0) (entryCpu.orFlags EF.PROTECTED_ENABLE)
      = .interrupt ⟨IntCode.INSTRUCTION_FAULT, 0x3⟩ (entryCpu.orFlags EF.PROTECTED_ENABLE) ∧
    dispatchInstruction (encodeWord Op.INT 0 15 0xA5) entryCpu
      = .interrupt ⟨0xA5, 0⟩ entryCpu :=
  ⟨by decide,
    (dispatchInstruction_instruction_fault (encodeWord 35 0 0 0) entryCpu _ _ rfl rfl).2.1
      (by decide),
    (dispatchInstruction_instruction_fault (encodeWord Op.IRET 0 0 0)
      (entryCpu.orFlags EF.PROTECTED_ENABLE) _ _ rfl rfl).2.2.1 (by decide) (by decide),
    (dispatchInstruction_instruction_fault (encodeWord Op.INT 0 15 0xA5) entryCpu _ 0xA5 rfl
      (by decide)).2.2.2.2 (by decide) (by decide) (by decide)⟩

theorem mStoreLoop_frame (pa : Nat) :
    ∀ (n i data : Nat) (c c' : CPU), mStoreLoop pa n i data c = some c' →
      c' = { c with memory := c'.memory } := by
  intro n
  induction n with
  | zero =>
    intro i data c c' h
    simp only [mStoreLoop, Option.some.injEq] at h
    rw [← h]
  | succ n ih =>
    intro i data c c' h
    simp only [mStoreLoop] at h
    split at h
    · have := ih _ _ _ _ h
      rw [this]
      rfl
    · cases h

/-- With the `n` bytes at `pa` inside memory, `mStore` returns the state with
only `memory` changed: byte `j` of the range holds byte `j` of the value and
every byte outside the range is as before. -/
theorem mStore_eq (c : CPU) (pa data n : Nat) (h32 : pa + n ≤ 2 ^ 32)
    (hsz : pa + n ≤ c.memSize) (hn : 0 < n) :
    ∃ mem', mStore c pa data n = some { c with memory := mem' } ∧
      (∀ j, j < n → mem' (pa + j) = ((data % 2 ^ 64) >>> (8 * j)) % 256) ∧
      (∀ a, (a < pa ∨ pa + n ≤ a) → mem' a = c.memory a) := by
  have hpa : pa % 2 ^ 32 = pa := Nat.mod_eq_of_lt (by omega)
  obtain ⟨c', h1, -, -, -, h5, h6⟩ :=
    mStoreLoop_eq pa n 0 (data % 2 ^ 64) c (by omega) (by omega)
  have hf := mStoreLoop_frame pa n 0 (data % 2 ^ 64) c c' h1
  refine ⟨c'.memory, ?_, ?_, ?_⟩
  · unfold mStore
    rw [hpa, h1, ← hf]
  · intro j hj
    have := h5 j hj
    simpa using this
  · intro a ha
    exact h6 a (by omega)

theorem mLoadLoop_total (c : CPU) (pa : Nat) :
    ∀ (n ret : Nat), (∀ j, j < n → (pa + j) % 2 ^ 32 < c.memSize) →
      ∃ v, mLoadLoop c pa n ret = some v := by
  intro n
  induction n with
  | zero => intro ret _; exact ⟨ret, rfl⟩
  | succ n ih =>
    intro ret h
    simp only [mLoadLoop]
    rw [if_pos (h n (by omega))]
    exact ih _ (fun j hj => h j (by omega))

/-- `mLoad` returns a value whenever every byte it reads is inside memory. -/
theorem mLoad_total (c : CPU) (pa n : Nat)
    (h : ∀ j, j < n → (pa % 2 ^ 32 + j) % 2 ^ 32 < c.memSize) :
    ∃ v, mLoad c pa n = some v :=
  mLoadLoop_total c _ n 0 h

/-- With paging off `resolveAddress` is the identity on 32-bit addresses and
leaves the state alone. -/
theorem resolveAddress_paging_off (addr : Nat) (write jump : Bool) (c : CPU)
    (hp : c.flagSet EF.PAGING_ENABLE = false) :
    resolveAddress addr write jump c = .ok (addr % 2 ^ 32) c := by
  unfold resolveAddress
  simp only []
  rw [if_pos (by rw [hp]; decide)]

/-- With `SP >= 8` and the 8 bytes below `SP` inside memory, `stackPush`
decreases `SP` by 8 and stores the value little-endian at the new `SP`. -/
theorem stackPush_eq (v : Nat) (c : CPU) (h8 : 8 ≤ c.registers Reg.SP)
    (h32 : c.registers Reg.SP ≤ 2 ^ 32) (hsz : c.registers Reg.SP ≤ c.memSize) :
    ∃ mem', stackPush v c
        = .ok () { c.setReg Reg.SP (c.registers Reg.SP - 8) with memory := mem' } ∧
      (∀ j, j < 8 → mem' (c.registers Reg.SP - 8 + j) = ((v % 2 ^ 64) >>> (8 * j)) % 256) ∧
      (∀ a, (a < c.registers Reg.SP - 8 ∨ c.registers Reg.SP ≤ a) → mem' a = c.memory a) := by
  have hsp : (c.registers Reg.SP + 2 ^ 64 - 8) % 2 ^ 64 = c.registers Reg.SP - 8 := by omega
  obtain ⟨mem', h1, h2, h3⟩ :=
    mStore_eq (c.setReg Reg.SP (c.registers Reg.SP - 8)) (c.registers Reg.SP - 8) v 8
      (by omega) (by show _ ≤ c.memSize; omega) (by decide)
  refine ⟨mem', ?_, h2, ?_⟩
  · unfold stackPush
    simp only [hsp, registers_setReg_same, h1, Res.ofState]
  · intro a ha
    exact h3 a (by omega)

theorem testBit_and_not_two_pow (x m k : Nat) (hx : x < 2 ^ 64) :
    (x &&& (UINT64_MAX ^^^ 2 ^ m)).testBit k = (x.testBit k && decide (k ≠ m)) := by
  have hU : UINT64_MAX = 2 ^ 64 - 1 := rfl
  rw [Nat.testBit_and, Nat.testBit_xor, hU, Nat.testBit_two_pow_sub_one, Nat.testBit_two_pow]
  by_cases hk : k < 64
  · by_cases hkm : m = k
    · subst hkm; simp [hk]
    · have : k ≠ m := fun h => hkm h.symm
      simp [hk, hkm, this]
  · have hx2 : x.testBit k = false :=
      Nat.testBit_lt_two_pow (Nat.lt_of_lt_of_le hx (Nat.pow_le_pow_right (by decide) (by omega)))
    simp [hx2]

theorem handleInterrupt_unfold (i : Interrupt) (c : CPU) (hH : c.handlingInterrupt = false) :
    handleInterrupt i c =
      (stackPush (if i.code > IntCode.FAULT_END then (c.ip + 4) % 2 ^ 64 else c.ip)
        ((((({ c with handlingInterrupt := true } : CPU).andFlags
          (UINT64_MAX ^^^ EF.PROTECTED_ENABLE)).andFlags
          (UINT64_MAX ^^^ EF.INTERRUPT_ENABLE)).setProt ProtectedReg.USP
            (c.registers Reg.SP)).setReg Reg.SP (c.protectedReg ProtectedReg.PSP))).bind
        fun _ c6 => (stackPush c.eflags c6).bind fun _ c7 =>
          (resolveAddress ((c7.protectedReg ProtectedReg.IJT + i.code * 8) % 2 ^ 64)
            false false c7).bind fun physicalAddress c8 =>
            (Res.ofOption (mLoad c8 physicalAddress 4) c8).bind fun jumpAddress c9 =>
              .ok () { c9 with nipSet := true, nip := jumpAddress % 2 ^ 32 } := by
  unfold handleInterrupt
  rw [if_neg (by rw [hH]; decide)]
  rfl

/-- The outcome of `handleInterrupt` when it is entered with
`handlingInterrupt` false, paging off, `16 <= PSP <= 2^32`, the 16 bytes below
`PSP` and the 4 bytes of the vector inside memory. -/
theorem handleInterrupt_eq (i : Interrupt) (c : CPU)
    (hH : c.handlingInterrupt = false)
    (hPg : c.flagSet EF.PAGING_ENABLE = false)
    (hlo : 16 ≤ c.protectedReg ProtectedReg.PSP)
    (hhi : c.protectedReg ProtectedReg.PSP ≤ 2 ^ 32)
    (hsz : c.protectedReg ProtectedReg.PSP ≤ c.memSize)
    (hvec : ∀ j, j < 4 →
      ((c.protectedReg ProtectedReg.IJT + i.code * 8) % 2 ^ 64 % 2 ^ 32 + j) % 2 ^ 32
        < c.memSize)
    (hef : c.eflags < 2 ^ 64) :
    ∃ c' v, handleInterrupt i c = .ok () c' ∧
      c'.handlingInterrupt = true ∧
      c'.protectedReg ProtectedReg.USP = c.registers Reg.SP ∧
      c'.registers Reg.SP = c.protectedReg ProtectedReg.PSP - 16 ∧
      c'.eflags = (c.eflags &&& (UINT64_MAX ^^^ EF.PROTECTED_ENABLE)) &&&
        (UINT64_MAX ^^^ EF.INTERRUPT_ENABLE) ∧
      (∀ j, j < 8 → c'.memory (c.protectedReg ProtectedReg.PSP - 8 + j)
        = (((if i.code > IntCode.FAULT_END then (c.ip + 4) % 2 ^ 64 else c.ip) % 2 ^ 64)
            >>> (8 * j)) % 256) ∧
      (∀ j, j < 8 → c'.memory (c.protectedReg ProtectedReg.PSP - 16 + j)
        = ((c.eflags % 2 ^ 64) >>> (8 * j)) % 256) ∧
      (∀ a, (a < c.protectedReg ProtectedReg.PSP - 16 ∨ c.protectedReg ProtectedReg.PSP ≤ a) →
        c'.memory a = c.memory a) ∧
      c'.nipSet = true ∧ c'.nip = v % 2 ^ 32 ∧
      mLoad c' ((c.protectedReg ProtectedReg.IJT + i.code * 8) % 2 ^ 64 % 2 ^ 32) 4 = some v ∧
      c'.memSize = c.memSize ∧ c'.ip = c.ip ∧
      c'.protectedReg ProtectedReg.PSP = c.protectedReg ProtectedReg.PSP ∧
      c'.protectedReg ProtectedReg.IJT = c.protectedReg ProtectedReg.IJT := by
  -- the state before the first push
  obtain ⟨c5, hc5⟩ : ∃ c5 : CPU, c5 =
      (((({ c with handlingInterrupt := true } : CPU).andFlags
        (UINT64_MAX ^^^ EF.PROTECTED_ENABLE)).andFlags
        (UINT64_MAX ^^^ EF.INTERRUPT_ENABLE)).setProt ProtectedReg.USP (c.registers Reg.SP)).setReg
        Reg.SP (c.protectedReg ProtectedReg.PSP) := ⟨_, rfl⟩
  have r5 : c5.registers Reg.SP = c.protectedReg ProtectedReg.PSP := by rw [hc5]; rfl
  have s5 : c5.memSize = c.memSize := by rw [hc5]; rfl
  obtain ⟨m1, e1, b1, f1⟩ := stackPush_eq
    (if i.code > IntCode.FAULT_END then (c.ip + 4) % 2 ^ 64 else c.ip) c5
    (by rw [r5]; omega) (by rw [r5]; exact hhi) (by rw [r5, s5]; exact hsz)
  obtain ⟨c6, hc6⟩ : ∃ c6 : CPU, c6 =
      { c5.setReg Reg.SP (c5.registers Reg.SP - 8) with memory := m1 } := ⟨_, rfl⟩
  rw [← hc6] at e1
  have r6 : c6.registers Reg.SP = c.protectedReg ProtectedReg.PSP - 8 := by
    rw [hc6]
    show (c5.setReg Reg.SP (c5.registers Reg.SP - 8)).registers Reg.SP = _
    rw [registers_setReg_same, r5]
  have s6 : c6.memSize = c.memSize := by rw [hc6, ← s5]; rfl
  obtain ⟨m2, e2, b2, f2⟩ := stackPush_eq c.eflags c6
    (by rw [r6]; omega) (by rw [r6]; omega) (by rw [r6, s6]; omega)
  obtain ⟨c7, hc7⟩ : ∃ c7 : CPU, c7 =
      { c6.setReg Reg.SP (c6.registers Reg.SP - 8) with memory := m2 } := ⟨_, rfl⟩
  rw [← hc7] at e2
  have r7 : c7.registers Reg.SP = c.protectedReg ProtectedReg.PSP - 16 := by
    rw [hc7]
    show (c6.setReg Reg.SP (c6.registers Reg.SP - 8)).registers Reg.SP = _
    rw [registers_setReg_same, r6]; omega
  have s7 : c7.memSize = c.memSize := by rw [hc7, ← s6]; rfl
  have ef7 : c7.eflags = (c.eflags &&& (UINT64_MAX ^^^ EF.PROTECTED_ENABLE)) &&&
      (UINT64_MAX ^^^ EF.INTERRUPT_ENABLE) := by
    rw [hc7, hc6, hc5]
    show ((({ c with handlingInterrupt := true } : CPU).andFlags _).andFlags _).eflags = _
    rw [eflags_andFlags, eflags_andFlags]
    rfl
  have ij7 : c7.protectedReg ProtectedReg.IJT = c.protectedReg ProtectedReg.IJT := by
    rw [hc7, hc6, hc5]; rfl
  have pg7 : c7.flagSet EF.PAGING_ENABLE = false := by
    have e62 : EF.PAGING_ENABLE = 2 ^ 62 := rfl
    have e63 : EF.PROTECTED_ENABLE = 2 ^ 63 := rfl
    have e61 : EF.INTERRUPT_ENABLE = 2 ^ 61 := rfl
    rw [e62, flagSet_eq_testBit] at hPg ⊢
    rw [ef7, e63, e61, testBit_and_not_two_pow _ _ _
      (Nat.lt_of_le_of_lt Nat.and_le_left hef),
      testBit_and_not_two_pow _ _ _ hef, hPg]
    rfl
  obtain ⟨v, hv⟩ := mLoad_total c7
    ((c.protectedReg ProtectedReg.IJT + i.code * 8) % 2 ^ 64 % 2 ^ 32) 4
    (by
      intro j hj
      rw [s7, Nat.mod_mod]
      exact hvec j hj)
  have hmain : handleInterrupt i c
      = .ok () { c7 with nipSet := true, nip := v % 2 ^ 32 } := by
    rw [handleInterrupt_unfold i c hH, ← hc5, e1]
    simp only [Res.bind]
    rw [e2]
    simp only [Res.bind]
    rw [ij7, resolveAddress_paging_off _ _ _ _ pg7]
    simp only [Res.bind]
    rw [hv]
    rfl
  have m7 : c7.memory = m2 := by rw [hc7]
  have m6 : c6.memory = m1 := by rw [hc6]
  have m5 : c5.memory = c.memory := by rw [hc5]; rfl
  refine ⟨_, v, hmain, ?_, ?_, r7, ef7, ?_, ?_, ?_, rfl, rfl, hv, s7, ?_, ?_, ij7⟩
  · rw [hc7, hc6, hc5]; rfl
  · rw [hc7, hc6, hc5]; rfl
  · intro j hj
    show c7.memory _ = _
    rw [m7, f2 _ (by rw [r6]; omega), m6]
    have := b1 j hj
    rw [r5] at this
    exact this
  · intro j hj
    show c7.memory _ = _
    rw [m7]
    have := b2 j hj
    rw [r6, show c.protectedReg ProtectedReg.PSP - 8 - 8 = c.protectedReg ProtectedReg.PSP - 16
      by omega] at this
    exact this
  · intro a ha
    show c7.memory _ = _
    rw [m7, f2 a (by rw [r6]; omega), m6, f1 a (by rw [r5]; omega), m5]
  · rw [hc7, hc6, hc5]; rfl
  · rw [hc7, hc6, hc5]; rfl

/-- `IRET`, `PMOV` and every other opcode handled by `executePriviliged` leave
`handlingInterrupt` as it was. -/
theorem executePriviliged_handlingInterrupt (inst : Inst) (c c' : CPU)
    (h : executePriviliged inst c = .ok () c') :
    c'.handlingInterrupt = c.handlingInterrupt := by
  unfold executePriviliged at h
  split at h
  · cases h
  · split at h
    · injection h with _ e; rw [← e]; rfl
    · split at h
      · obtain ⟨v1, c1, hp1, h⟩ := Res.bind_eq_ok h
        obtain ⟨v2, c2, hp2, h⟩ := Res.bind_eq_ok h
        unfold stackPop at hp1 hp2
        obtain ⟨_, d1, ho1, hp1⟩ := Res.bind_eq_ok hp1
        obtain ⟨_, d2, ho2, hp2⟩ := Res.bind_eq_ok hp2
        have k1 : d1 = c := by
          unfold Res.ofOption at ho1
          split at ho1
          · injection ho1 with _ e; exact e.symm
          · cases ho1
        have k2 : d2 = c1 := by
          unfold Res.ofOption at ho2
          split at ho2
          · injection ho2 with _ e; exact e.symm
          · cases ho2
        injection hp1 with _ e1
        injection hp2 with _ e2
        injection h with _ e
        rw [← e, ← e2, k2, ← e1, k1]
        rfl
      · injection h with _ e; rw [← e]

theorem getPageMap_unoccupied (address : Nat) (write jump : Bool) (entry : Nat) (c : CPU)
    (h : entry &&& PE.OCCUPIED = 0) :
    getPageMap address write jump entry c
      = .interrupt ⟨IntCode.PAGE_FAULT, (address &&& 0xFFFFFFFF) ||| (PE.OCCUPIED <<< 32)⟩ c := by
  unfold getPageMap
  simp only []
  rw [if_pos h, if_pos (by decide)]

/-- With paging on, the root entry that `resolveAddress` obtains from `mLoad`
has its low byte zero, so the walk stops at the first check: whenever the four
bytes of the root entry are inside memory the result is a `PAGE_FAULT` whose
info carries the mask `OCCUPIED`. -/
theorem resolveAddress_paging_on (addr : Nat) (write jump : Bool) (c : CPU) (v : Nat)
    (hp : c.flagSet EF.PAGING_ENABLE = true)
    (hv : mLoad c ((c.protectedReg ProtectedReg.RPT
      + ((addr % 2 ^ 32 &&& 0xFFC00000) >>> 22) % 2 ^ 16) % 2 ^ 64) 4 = some v) :
    resolveAddress addr write jump c
      = .interrupt ⟨IntCode.PAGE_FAULT,
          (addr % 2 ^ 32 &&& 0xFFFFFFFF) ||| (PE.OCCUPIED <<< 32)⟩ c := by
  have hlow := mLoad_low_byte_zero c _ 4 v hv
  have hocc : v % 2 ^ 32 &&& PE.OCCUPIED = 0 := by
    show v % 2 ^ 32 &&& 1 = 0
    rw [Nat.and_one_is_mod]
    omega
  unfold resolveAddress
  simp only []
  rw [if_neg (by rw [hp]; decide), hv]
  simp only [Res.ofOption, Res.bind]
  rw [getPageMap_unoccupied _ _ _ _ _ hocc]

/-- With paging on `resolveAddress` never returns an address. -/
theorem resolveAddress_paging_on_not_ok (addr : Nat) (write jump : Bool) (c : CPU)
    (hp : c.flagSet EF.PAGING_ENABLE = true) (pa : Nat) (c' : CPU) :
    resolveAddress addr write jump c ≠ .ok pa c' := by
  intro h
  cases hv : mLoad c ((c.protectedReg ProtectedReg.RPT
      + ((addr % 2 ^ 32 &&& 0xFFC00000) >>> 22) % 2 ^ 16) % 2 ^ 64) 4 with
  | none =>
    unfold resolveAddress at h
    simp only [] at h
    rw [if_neg (by rw [hp]; decide), hv] at h
    simp [Res.ofOption, Res.bind] at h
  | some v =>
    rw [resolveAddress_paging_on addr write jump c v hp hv] at h
    cases h

/-- The vector that `handleInterrupt` commits: under the conditions of entry,
with the four bytes of the vector inside the first `2^32` bytes and every
memory cell a byte, next-IP is the little-endian value of the vector bytes
shifted left by 8 and truncated to 32 bits. -/
theorem handleInterrupt_nip (i : Interrupt) (c : CPU)
    (hH : c.handlingInterrupt = false)
    (hPg : c.flagSet EF.PAGING_ENABLE = false)
    (hlo : 16 ≤ c.protectedReg ProtectedReg.PSP)
    (hhi : c.protectedReg ProtectedReg.PSP ≤ 2 ^ 32)
    (hsz : c.protectedReg ProtectedReg.PSP ≤ c.memSize)
    (h32 : (c.protectedReg ProtectedReg.IJT + i.code * 8) % 2 ^ 64 % 2 ^ 32 + 4 ≤ 2 ^ 32)
    (hin : (c.protectedReg ProtectedReg.IJT + i.code * 8) % 2 ^ 64 % 2 ^ 32 + 4 ≤ c.memSize)
    (hef : c.eflags < 2 ^ 64)
    (hb : ∀ a, c.memory a < 256) :
    ∃ c', handleInterrupt i c = .ok () c' ∧ c'.nipSet = true ∧
      c'.nip = (leValue c'.memory
        ((c.protectedReg ProtectedReg.IJT + i.code * 8) % 2 ^ 64 % 2 ^ 32) 4 * 256) % 2 ^ 32 := by
  obtain ⟨c', v, h, -, -, -, -, b1, b2, f, hn, hnip, hv, hs, -⟩ :=
    handleInterrupt_eq i c hH hPg hlo hhi hsz
      (fun j hj => by rw [Nat.mod_eq_of_lt (by omega)]; omega) hef
  have hb' : ∀ a, c'.memory a < 256 := by
    intro a
    by_cases ha : a < c.protectedReg ProtectedReg.PSP - 16 ∨ c.protectedReg ProtectedReg.PSP ≤ a
    · rw [f a ha]; exact hb a
    · by_cases ha2 : a < c.protectedReg ProtectedReg.PSP - 8
      · have := b2 (a - (c.protectedReg ProtectedReg.PSP - 16)) (by omega)
        rw [show c.protectedReg ProtectedReg.PSP - 16
          + (a - (c.protectedReg ProtectedReg.PSP - 16)) = a by omega] at this
        rw [this]; exact Nat.mod_lt _ (by decide)
      · have := b1 (a - (c.protectedReg ProtectedReg.PSP - 8)) (by omega)
        rw [show c.protectedReg ProtectedReg.PSP - 8
          + (a - (c.protectedReg ProtectedReg.PSP - 8)) = a by omega] at this
        rw [this]; exact Nat.mod_lt _ (by decide)
  have hv2 := mLoad_eq c' _ 4 h32 (by rw [hs]; exact hin) (fun j _ => hb' _)
  rw [hv2] at hv
  injection hv with hv
  refine ⟨c', h, hn, ?_⟩
  rw [hnip, ← hv]
  omega

theorem shiftRight_mod_byte (x j : Nat) (hj : j < 8) :
    ((x % 2 ^ 64) >>> (8 * j)) % 256 = (x >>> (8 * j)) % 256 := by
  have h256 : (256 : Nat) = 2 ^ 8 := rfl
  apply Nat.eq_of_testBit_eq
  intro k
  rw [h256, Nat.testBit_mod_two_pow, Nat.testBit_mod_two_pow, Nat.testBit_shiftRight,
    Nat.testBit_shiftRight, Nat.testBit_mod_two_pow]
  by_cases hk : k < 8
  · have : 8 * j + k < 64 := by omega
    simp [hk, this]
  · simp [hk]

/-- C15: for every interrupt code and every state with `handlingInterrupt`
false, paging off, `16 <= PSP < 2^32`, the 16 bytes below `PSP` and the 4 bytes
of the vector inside memory (and 64-bit `EFLAGS`), `handleInterrupt` completes
with `handlingInterrupt = true`, `USP = old SP`, `SP = old PSP - 16`, byte `j`
of `saved_ip` at `old PSP - 8 + j` and byte `j` of the old `EFLAGS` at
`old PSP - 16 + j` for `j < 8`, where `saved_ip` is `IP + 4` (mod 2^64) for a
code above `0x1F` and `IP` otherwise, and with `EFLAGS` equal to the old
`EFLAGS` with exactly bits 63 (`PROTECTED_ENABLE`) and 61 (`INTERRUPT_ENABLE`)
cleared. -/
theorem handleInterrupt_entry (i : Interrupt) (c : CPU) (savedIp : Nat)
    (hH : c.handlingInterrupt = false)
    (hPg : c.flagSet EF.PAGING_ENABLE = false)
    (hlo : 16 ≤ c.protectedReg ProtectedReg.PSP)
    (hhi : c.protectedReg ProtectedReg.PSP < 2 ^ 32)
    (hsz : c.protectedReg ProtectedReg.PSP ≤ c.memSize)
    (hvec : ∀ j, j < 4 →
      ((c.protectedReg ProtectedReg.IJT + i.code * 8) % 2 ^ 64 % 2 ^ 32 + j) % 2 ^ 32
        < c.memSize)
    (hef : c.eflags < 2 ^ 64)
    (hs : savedIp = if 0x1F < i.code then (c.ip + 4) % 2 ^ 64 else c.ip) :
    ∃ c', handleInterrupt i c = .ok () c' ∧
      c'.handlingInterrupt = true ∧
      c'.protectedReg ProtectedReg.USP = c.registers Reg.SP ∧
      c'.registers Reg.SP = c.protectedReg ProtectedReg.PSP - 16 ∧
      (∀ j, j < 8 →
        c'.memory (c.protectedReg ProtectedReg.PSP - 8 + j) = (savedIp >>> (8 * j)) % 256) ∧
      (∀ j, j < 8 →
        c'.memory (c.protectedReg ProtectedReg.PSP - 16 + j) = (c.eflags >>> (8 * j)) % 256) ∧
      (∀ k, c'.eflags.testBit k = (c.eflags.testBit k && decide (k ≠ 63 ∧ k ≠ 61))) := by
  obtain ⟨c', v, h, h1, h2, h3, h4, h5, h6, -⟩ :=
    handleInterrupt_eq i c hH hPg hlo (Nat.le_of_lt hhi) hsz hvec hef
  refine ⟨c', h, h1, h2, h3, ?_, ?_, ?_⟩
  · intro j hj
    rw [h5 j hj, shiftRight_mod_byte _ _ hj, hs]
    rfl
  · intro j hj
    rw [h6 j hj, shiftRight_mod_byte _ _ hj]
  · intro k
    have e63 : EF.PROTECTED_ENABLE = 2 ^ 63 := rfl
    have e61 : EF.INTERRUPT_ENABLE = 2 ^ 61 := rfl
    rw [h4, e63, e61, testBit_and_not_two_pow _ _ _ (Nat.lt_of_le_of_lt Nat.and_le_left hef),
      testBit_and_not_two_pow _ _ _ hef]
    by_cases a : k = 63 <;> by_cases b : k = 61 <;> simp [a, b]

/-- C15 on `entryCpu` (`IP = 0x40`, `EFLAGS = CARRY`, `SP = 0x300`,
`PSP = 0x200`) and `ALU_FAULT`: the entry completes with `SP = 0x1F0`,
`USP = 0x300`, the byte `0x40` at `0x1F8` and the byte `0x01` at `0x1F0`. -/
theorem handleInterrupt_entry_witness :
    entryCpu.handlingInterrupt = false ∧ entryCpu.protectedReg ProtectedReg.PSP = 0x200 ∧
    ∃ c', handleInterrupt ⟨IntCode.ALU_FAULT, 0⟩ entryCpu = .ok () c' ∧
      c'.handlingInterrupt = true ∧ c'.protectedReg ProtectedReg.USP = 0x300 ∧
      c'.registers Reg.SP = 0x1F0 ∧ c'.memory 0x1F8 = 0x40 ∧ c'.memory 0x1F0 = 0x01 := by
  obtain ⟨c', h, h1, h2, h3, h4, h5, -⟩ :=
    handleInterrupt_entry ⟨IntCode.ALU_FAULT, 0⟩ entryCpu 0x40 (by decide) (by decide)
      (by decide) (by decide) (by decide) (by decide) (by decide) (by decide)
  exact ⟨by decide, by decide, c', h, h1, h2.trans (by decide), h3.trans (by decide),
    (h4 0 (by decide)).trans (by decide), (h5 0 (by decide)).trans (by decide)⟩

/-- C16, evaluated on the code: in `divZeroCpu` (`IJT = 0x1000`, the bytes
`00 02 00 00` at `0x1010`, the first instruction fetched as `DIV A, Z`, paging
off, `handlingInterrupt` false) the tick raises `ALU_FAULT`, enters the
handler and leaves `IP = 0x20000`, while the 4-byte little-endian value at
`IJT + 8*2` is `0x0200`. -/
theorem progressClock_vector_shifted :
    (fetchInstruction divZeroCpu).value? = some (encodeWord Op.DIV 0 15 0) ∧
    leValue divZeroCpu.memory (0x1000 + 8 * IntCode.ALU_FAULT) 4 = 0x0200 ∧
    (progressClock divZeroCpu).state?.map
        (fun c => (c.ip, c.handlingInterrupt, c.registers Reg.SP)) = some (0x20000, true, 0x1FF0) := by
  decide

/-- C17, evaluated on the code: from `entryCpu` (`IP = 0x40`, `EFLAGS = CARRY`,
`SP = 0x300`, `PSP = 0x200`) an `ALU_FAULT` entry followed by `IRET` gives
next-IP `0x4000` (not `0x40`) and
`EFLAGS = PROTECTED_ENABLE | INTERRUPT_ENABLE | 0x100` (not `... | CARRY`),
with `SP = 0x300` and `PSP = 0x200` restored. -/
theorem handleInterrupt_iret_not_symmetric :
    ((handleInterrupt ⟨IntCode.ALU_FAULT, 0⟩ entryCpu).bind fun _ c =>
        executePriviliged ⟨Op.IRET, 0, 0, 0⟩ c).state?.map
        (fun c => (c.nipSet, c.nip, c.eflags, c.registers Reg.SP,
          c.protectedReg ProtectedReg.PSP))
      = some (true, 0x4000, EF.PROTECTED_ENABLE ||| EF.INTERRUPT_ENABLE ||| 0x100, 0x300, 0x200) ∧
    entryCpu.ip = 0x40 ∧ entryCpu.eflags = EF.CARRY := by
  decide

theorem mLoad_setReg (c : CPU) (r : Fin 16) (x pa n : Nat) :
    mLoad (c.setReg r x) pa n = mLoad c pa n := by
  unfold mLoad
  generalize (0 : Nat) = ret
  induction n generalizing ret with
  | zero => rfl
  | succ n ih =>
    simp only [mLoadLoop]
    rw [ih]
    rfl

/-- `IRET` executed with protection off and every byte of the two pops inside
memory completes, and its result is described by the two popped values. -/
theorem executePriviliged_iret_eq (inst : Inst) (c : CPU)
    (hop : inst.opcode = Op.IRET)
    (hp : c.flagSet EF.PROTECTED_ENABLE = false)
    (h1 : ∀ j, j < 8 → (c.registers Reg.SP % 2 ^ 32 + j) % 2 ^ 32 < c.memSize)
    (h2 : ∀ j, j < 8 →
      ((c.registers Reg.SP + 8) % 2 ^ 64 % 2 ^ 32 + j) % 2 ^ 32 < c.memSize) :
    ∃ c' eflags rip, executePriviliged inst c = .ok () c' ∧
      mLoad c (c.registers Reg.SP) 8 = some eflags ∧
      mLoad c ((c.registers Reg.SP + 8) % 2 ^ 64) 8 = some rip ∧
      c'.eflags = eflags ||| (EF.PROTECTED_ENABLE ||| EF.INTERRUPT_ENABLE) ∧
      c'.nipSet = true ∧ c'.nip = rip ∧
      c'.handlingInterrupt = c.handlingInterrupt := by
  obtain ⟨v1, hv1⟩ := mLoad_total c (c.registers Reg.SP) 8 h1
  obtain ⟨v2, hv2⟩ := mLoad_total c ((c.registers Reg.SP + 8) % 2 ^ 64) 8 h2
  unfold executePriviliged
  rw [if_neg (by rw [hp]; decide), if_neg (by rw [hop]; decide), if_pos hop]
  unfold stackPop
  simp only [hv1, Res.ofOption, Res.bind, registers_setReg_same, mLoad_setReg, hv2]
  refine ⟨_, v1, v2, rfl, rfl, rfl, ?_, rfl, rfl, rfl⟩
  rw [eflags_orFlags]
  simp [CPU.eflags, CPU.setProt, CPU.setReg]

/-- C18: for every state with `PROTECTED_ENABLE` clear in which the 16 bytes
read by the two pops of `IRET` are inside memory, and for every content of the
memory, `IRET` completes with both `PROTECTED_ENABLE` and `INTERRUPT_ENABLE`
set in `EFLAGS`. -/
theorem executePriviliged_iret_forces_flags (inst : Inst) (c : CPU)
    (hop : inst.opcode = Op.IRET)
    (hp : c.flagSet EF.PROTECTED_ENABLE = false)
    (h1 : ∀ j, j < 8 → (c.registers Reg.SP % 2 ^ 32 + j) % 2 ^ 32 < c.memSize)
    (h2 : ∀ j, j < 8 →
      ((c.registers Reg.SP + 8) % 2 ^ 64 % 2 ^ 32 + j) % 2 ^ 32 < c.memSize) :
    ∃ c', executePriviliged inst c = .ok () c' ∧
      c'.flagSet EF.PROTECTED_ENABLE = true ∧ c'.flagSet EF.INTERRUPT_ENABLE = true := by
  obtain ⟨c', v1, v2, h, -, -, hf, -⟩ := executePriviliged_iret_eq inst c hop hp h1 h2
  have e63 : EF.PROTECTED_ENABLE = 2 ^ 63 := rfl
  have e61 : EF.INTERRUPT_ENABLE = 2 ^ 61 := rfl
  refine ⟨c', h, ?_, ?_⟩
  · rw [e63, flagSet_eq_testBit, hf, e63, e61, Nat.testBit_or, Nat.testBit_or,
      Nat.testBit_two_pow_self]
    simp
  · rw [e61, flagSet_eq_testBit, hf, e63, e61, Nat.testBit_or, Nat.testBit_or,
      Nat.testBit_two_pow_self]
    simp

/-- C18 on a stack whose popped `EFLAGS` word is all zero: `IRET` from
`stackCpu` (`SP = 0x100`, zeroed memory) ends with both flags set. -/
theorem executePriviliged_iret_forces_flags_witness :
    stackCpu.flagSet EF.PROTECTED_ENABLE = false ∧ stackCpu.registers Reg.SP = 0x100 ∧
    ∃ c', executePriviliged ⟨Op.IRET, 0, 0, 0⟩ stackCpu = .ok () c' ∧
      c'.flagSet EF.PROTECTED_ENABLE = true ∧ c'.flagSet EF.INTERRUPT_ENABLE = true :=
  ⟨by decide, by decide,
    executePriviliged_iret_forces_flags ⟨Op.IRET, 0, 0, 0⟩ stackCpu rfl (by decide)
      (by decide) (by decide)⟩

/-- C19, evaluated on the code: after an `ALU_FAULT` entry from `entryCpu` and
a completed `IRET`, `handlingInterrupt` is still true, and a second
`ALU_FAULT` raised then ends in the double fault. -/
theorem executePriviliged_iret_keeps_handlingInterrupt :
    ((handleInterrupt ⟨IntCode.ALU_FAULT, 0⟩ entryCpu).bind fun _ c =>
        executePriviliged ⟨Op.IRET, 0, 0, 0⟩ c).state?.map
        (fun c => c.handlingInterrupt) = some true ∧
    (((handleInterrupt ⟨IntCode.ALU_FAULT, 0⟩ entryCpu).bind fun _ c =>
        executePriviliged ⟨Op.IRET, 0, 0, 0⟩ c).bind fun _ c =>
        handleInterrupt ⟨IntCode.ALU_FAULT, 0⟩ c).isDoubleFault = true := by
  decide

/-- C20, evaluated on the code: in `pagedCpu` (paging on, protection off,
`RPT = 0x1000`) the root entry stored little-endian at `RPT + 0` is
`0x00002001` and the page entry stored little-endian at `0x2000 + 0` is
`0x00003001`, both with `OCCUPIED` set, yet `resolveAddress(0)` raises
`PAGE_FAULT` with info `(0x1 << 32) | 0` instead of returning `0x3000`. -/
theorem resolveAddress_walk_faults :
    pagedCpu.flagSet EF.PAGING_ENABLE = true ∧ pagedCpu.flagSet EF.PROTECTED_ENABLE = false ∧
    leValue pagedCpu.memory 0x1000 4 = 0x2001 ∧ leValue pagedCpu.memory 0x2000 4 = 0x3001 ∧
    (resolveAddress 0 false false pagedCpu).raised? = some (IntCode.PAGE_FAULT, 0x100000000) ∧
    (resolveAddress 0 false false pagedCpu).value? = none := by
  decide

/-- C21, evaluated on the code: with paging and protection on, a read of
address 0 whose root entry `0x00000003` (little-endian at `RPT + 0`) has
`OCCUPIED` and `PROTECTED` set raises `PAGE_FAULT` with info `(0x1 << 32) | 0`,
not `(0x2 << 32) | 0`; a write to `0x02000000` whose root entry `0x00000001`
has `OCCUPIED` set and `WRITABLE` clear raises info `(0x1 << 32) | 0x02000000`,
not `(0x8 << 32) | 0x02000000`; a write to `0xDEADBEEF` whose root entry has
`OCCUPIED` clear raises info `(0x1 << 32) | 0xDEADBEEF`. -/
theorem resolveAddress_reports_occupied_only :
    protectedPagedCpu.flagSet EF.PAGING_ENABLE = true ∧
    protectedPagedCpu.flagSet EF.PROTECTED_ENABLE = true ∧
    leValue protectedPagedCpu.memory (0x1000 + ((0 >>> 22) &&& 0x3FF)) 4
      = PE.OCCUPIED ||| PE.PROTECTED ∧
    (resolveAddress 0 false false protectedPagedCpu).raised?
      = some (IntCode.PAGE_FAULT, (0x1 <<< 32) ||| 0) ∧
    leValue protectedPagedCpu.memory (0x1000 + ((0x02000000 >>> 22) &&& 0x3FF)) 4
      = PE.OCCUPIED ∧
    (resolveAddress 0x02000000 true false protectedPagedCpu).raised?
      = some (IntCode.PAGE_FAULT, (0x1 <<< 32) ||| 0x02000000) ∧
    leValue protectedPagedCpu.memory (0x1000 + ((0xDEADBEEF >>> 22) &&& 0x3FF)) 4 = 0 ∧
    (resolveAddress 0xDEADBEEF true false protectedPagedCpu).raised?
      = some (IntCode.PAGE_FAULT, (0x1 <<< 32) ||| 0xDEADBEEF) := by
  decide

/-! ### Independence of `intSet` -/

theorem Res.bind_withIntSet {α β : Type} (b : Bool) {r r' : Res α}
    {f f' : α → CPU → Res β} (hr : r' = r.mapState fun s => s.withIntSet b)
    (hf : ∀ a c, f' a (c.withIntSet b) = (f a c).mapState fun s => s.withIntSet b) :
    r'.bind f' = (r.bind f).mapState fun s => s.withIntSet b := by
  subst hr
  cases r with
  | ok a c => exact hf a c
  | interrupt i c => rfl
  | doubleFault c => rfl
  | undefined => rfl

theorem Res.ofOption_withIntSet {α : Type} (b : Bool) (o : Option α) (c : CPU) :
    Res.ofOption o (c.withIntSet b) = (Res.ofOption o c).mapState fun s => s.withIntSet b := by
  cases o <;> rfl

theorem Res.ofState_withIntSet (b : Bool) (o : Option CPU) :
    Res.ofState (o.map fun s => s.withIntSet b)
      = (Res.ofState o).mapState fun s => s.withIntSet b := by
  cases o <;> rfl

theorem registers_withIntSet (c : CPU) (b : Bool) :
    (c.withIntSet b).registers = c.registers := rfl

theorem protectedReg_withIntSet (c : CPU) (b : Bool) :
    (c.withIntSet b).protectedReg = c.protectedReg := rfl

theorem eflags_withIntSet (c : CPU) (b : Bool) : (c.withIntSet b).eflags = c.eflags := rfl

theorem flagSet_withIntSet (c : CPU) (b : Bool) (m : Nat) :
    (c.withIntSet b).flagSet m = c.flagSet m := rfl

theorem ip_withIntSet (c : CPU) (b : Bool) : (c.withIntSet b).ip = c.ip := rfl

theorem handlingInterrupt_withIntSet (c : CPU) (b : Bool) :
    (c.withIntSet b).handlingInterrupt = c.handlingInterrupt := rfl

theorem mLoadLoop_withIntSet (c : CPU) (b : Bool) (pa : Nat) :
    ∀ n ret, mLoadLoop (c.withIntSet b) pa n ret = mLoadLoop c pa n ret := by
  intro n
  induction n with
  | zero => intro ret; rfl
  | succ n ih =>
    intro ret
    simp only [mLoadLoop]
    rw [ih]
    rfl

theorem mLoad_withIntSet (c : CPU) (b : Bool) (pa n : Nat) :
    mLoad (c.withIntSet b) pa n = mLoad c pa n :=
  mLoadLoop_withIntSet c b _ n 0

theorem fetchLoop_withIntSet (c : CPU) (b : Bool) (pa : Nat) :
    ∀ n ret, fetchLoop (c.withIntSet b) pa n ret = fetchLoop c pa n ret := by
  intro n
  induction n with
  | zero => intro ret; rfl
  | succ n ih =>
    intro ret
    simp only [fetchLoop]
    rw [ih]
    rfl

theorem mStoreLoop_withIntSet (b : Bool) (pa : Nat) :
    ∀ n i data c, mStoreLoop pa n i data (c.withIntSet b)
      = (mStoreLoop pa n i data c).map fun s => s.withIntSet b := by
  intro n
  induction n with
  | zero => intro i data c; rfl
  | succ n ih =>
    intro i data c
    simp only [mStoreLoop]
    by_cases h : (pa + i) % 2 ^ 32 < c.memSize
    · rw [if_pos h, if_pos (show (pa + i) % 2 ^ 32 < (c.withIntSet b).memSize from h)]
      exact ih _ _ (c.setMem _ _)
    · rw [if_neg h, if_neg (show ¬ (pa + i) % 2 ^ 32 < (c.withIntSet b).memSize from h)]
      rfl

theorem mStore_withIntSet (c : CPU) (b : Bool) (pa data n : Nat) :
    mStore (c.withIntSet b) pa data n = (mStore c pa data n).map fun s => s.withIntSet b :=
  mStoreLoop_withIntSet b _ n 0 _ c

theorem getPageMap_withIntSet (address : Nat) (write jump : Bool) (entry : Nat) (c : CPU)
    (b : Bool) :
    getPageMap address write jump entry (c.withIntSet b)
      = (getPageMap address write jump entry c).mapState fun s => s.withIntSet b := by
  have key : ∀ e : Nat,
      (if e ≠ 0 then
          (Res.interrupt ⟨IntCode.PAGE_FAULT, (address &&& 0xFFFFFFFF) ||| (e <<< 32)⟩
            (c.withIntSet b) : Res Nat)
        else .ok (entry &&& PE.FRAME) (c.withIntSet b))
      = (if e ≠ 0 then
          (Res.interrupt ⟨IntCode.PAGE_FAULT, (address &&& 0xFFFFFFFF) ||| (e <<< 32)⟩ c :
            Res Nat)
        else .ok (entry &&& PE.FRAME) c).mapState fun s => s.withIntSet b := by
    intro e
    split <;> rfl
  exact key _

theorem storeTail_withIntSet (b : Bool) (c4 : CPU) (A B T X : Nat) :
    (match mStore (c4.withIntSet b) A T 4 with
      | none => (Res.undefined : Res Nat)
      | some c =>
        match mStore c B T 4 with
        | none => .undefined
        | some c => .ok X c)
      = (match mStore c4 A T 4 with
          | none => (Res.undefined : Res Nat)
          | some c =>
            match mStore c B T 4 with
            | none => .undefined
            | some c => .ok X c).mapState fun s => s.withIntSet b := by
  rw [mStore_withIntSet]
  cases mStore c4 A T 4 with
  | none => rfl
  | some c5 =>
    show (match mStore (c5.withIntSet b) B T 4 with
      | none => (Res.undefined : Res Nat)
      | some c => Res.ok X c)
      = (match mStore c5 B T 4 with
          | none => (Res.undefined : Res Nat)
          | some c => Res.ok X c).mapState fun s => s.withIntSet b
    rw [mStore_withIntSet]
    cases mStore c5 B T 4 <;> rfl

theorem resolveAddress_withIntSet (addr : Nat) (write jump : Bool) (c : CPU) (b : Bool) :
    resolveAddress addr write jump (c.withIntSet b)
      = (resolveAddress addr write jump c).mapState fun s => s.withIntSet b := by
  unfold resolveAddress
  simp only [flagSet_withIntSet, protectedReg_withIntSet]
  by_cases hp : c.flagSet EF.PAGING_ENABLE = true
  · rw [if_neg (not_not.2 hp), if_neg (not_not.2 hp)]
    refine Res.bind_withIntSet b (by rw [mLoad_withIntSet]; exact Res.ofOption_withIntSet b _ _)
      fun v c1 => ?_
    refine Res.bind_withIntSet b (getPageMap_withIntSet _ _ _ _ _ _) fun pageTable c2 => ?_
    refine Res.bind_withIntSet b (by rw [mLoad_withIntSet]; exact Res.ofOption_withIntSet b _ _)
      fun v2 c3 => ?_
    refine Res.bind_withIntSet b (getPageMap_withIntSet _ _ _ _ _ _) fun frame c4 => ?_
    exact storeTail_withIntSet b c4 _ _ _ _
  · rw [if_pos hp, if_pos hp]
    rfl

theorem fetchInstruction_withIntSet (c : CPU) (b : Bool) :
    fetchInstruction (c.withIntSet b)
      = (fetchInstruction c).mapState fun s => s.withIntSet b := by
  unfold fetchInstruction
  refine Res.bind_withIntSet b (resolveAddress_withIntSet _ _ _ _ _) fun pa c1 => ?_
  rw [fetchLoop_withIntSet]
  exact Res.ofOption_withIntSet b _ _

theorem executeLoad_withIntSet (inst : Inst) (c : CPU) (b : Bool) :
    executeLoad inst (c.withIntSet b)
      = (executeLoad inst c).mapState fun s => s.withIntSet b := by
  unfold executeLoad
  simp only [registers_withIntSet]
  refine Res.bind_withIntSet b (resolveAddress_withIntSet _ _ _ _ _) fun pa c1 => ?_
  simp only [mLoad_withIntSet]
  split <;> rfl

theorem executeStore_withIntSet (inst : Inst) (c : CPU) (b : Bool) :
    executeStore inst (c.withIntSet b)
      = (executeStore inst c).mapState fun s => s.withIntSet b := by
  unfold executeStore
  simp only [registers_withIntSet]
  refine Res.bind_withIntSet b (resolveAddress_withIntSet _ _ _ _ _) fun pa c1 => ?_
  simp only [mStore_withIntSet, registers_withIntSet, Res.ofState_withIntSet]
  split
  · rfl
  · split
    · rfl
    · split
      · rfl
      · split <;> rfl

theorem executeConditional_withIntSet (inst : Inst) (c : CPU) (b : Bool) :
    executeConditional inst (c.withIntSet b)
      = (executeConditional inst c).mapState fun s => s.withIntSet b := by
  unfold executeConditional
  simp only []
  split
  · rfl
  · split
    · rfl
    · split
      · rfl
      · split
        · rfl
        · split <;> rfl

theorem executeMisc_withIntSet (inst : Inst) (c : CPU) (b : Bool) :
    executeMisc inst (c.withIntSet b)
      = (executeMisc inst c).mapState fun s => s.withIntSet b := by
  unfold executeMisc
  simp only [registers_withIntSet]
  split
  · rfl
  · split
    · rfl
    · split
      · split <;> rfl
      · rfl
theorem stackPush_withIntSet (value : Nat) (c : CPU) (b : Bool) :
    stackPush value (c.withIntSet b)
      = (stackPush value c).mapState fun s => s.withIntSet b := by
  unfold stackPush
  show Res.ofState (mStore ((c.setReg Reg.SP _).withIntSet b) _ value 8) = _
  rw [mStore_withIntSet]
  exact Res.ofState_withIntSet b _

theorem stackPop_withIntSet (c : CPU) (b : Bool) :
    stackPop (c.withIntSet b) = (stackPop c).mapState fun s => s.withIntSet b := by
  unfold stackPop
  simp only [registers_withIntSet]
  refine Res.bind_withIntSet b (by rw [mLoad_withIntSet]; exact Res.ofOption_withIntSet b _ _)
    fun v c1 => ?_
  rfl

theorem Res.ite_withIntSet {α : Type} (b : Bool) (p : Prop) [Decidable p]
    {x' y' x y : Res α}
    (hx : x' = x.mapState fun s => s.withIntSet b)
    (hy : y' = y.mapState fun s => s.withIntSet b) :
    (if p then x' else y') = (if p then x else y).mapState fun s => s.withIntSet b := by
  split <;> assumption

theorem binaryRegOpSwitch_withIntSet (inst : Inst) (o1 o2 : Nat) (c : CPU) (b : Bool) :
    binaryRegOpSwitch inst o1 o2 (c.withIntSet b)
      = (binaryRegOpSwitch inst o1 o2 c).mapState fun s => s.withIntSet b := by
  unfold binaryRegOpSwitch
  simp only []
  refine Res.ite_withIntSet b _ ?_ ?_
  · split <;> split <;> rfl
  refine Res.ite_withIntSet b _ ?_ ?_
  · split <;> split <;> rfl
  refine Res.ite_withIntSet b _ rfl ?_
  refine Res.ite_withIntSet b _ (Res.ite_withIntSet b _ rfl rfl) ?_
  refine Res.ite_withIntSet b _ (Res.ite_withIntSet b _ rfl rfl) ?_
  refine Res.ite_withIntSet b _
    (Res.ite_withIntSet b _ rfl (Res.ite_withIntSet b _ rfl rfl)) ?_
  refine Res.ite_withIntSet b _ (Res.ite_withIntSet b _ ?_ (Res.ofOption_withIntSet b _ _)) ?_
  · generalize shr64 o1 o2 = x
    generalize shl64 UINT64_MAX _ = y
    cases x <;> cases y <;> rfl
  refine Res.ite_withIntSet b _ rfl ?_
  refine Res.ite_withIntSet b _ rfl ?_
  refine Res.ite_withIntSet b _ rfl ?_
  refine Res.ite_withIntSet b _ (Res.ofOption_withIntSet b _ _) ?_
  exact Res.ite_withIntSet b _ (Res.ofOption_withIntSet b _ _) rfl

theorem executeBinaryRegOp_withIntSet (inst : Inst) (c : CPU) (b : Bool) :
    executeBinaryRegOp inst (c.withIntSet b)
      = (executeBinaryRegOp inst c).mapState fun s => s.withIntSet b := by
  unfold executeBinaryRegOp
  simp only [registers_withIntSet]
  refine Res.bind_withIntSet b
    (binaryRegOpSwitch_withIntSet _ _ _ (c.andFlags (EF.CARRY ||| EF.OVERFLOW)) b) fun r c1 => ?_
  split <;> split <;> rfl

theorem executePriviliged_withIntSet (inst : Inst) (c : CPU) (b : Bool) :
    executePriviliged inst (c.withIntSet b)
      = (executePriviliged inst c).mapState fun s => s.withIntSet b := by
  unfold executePriviliged
  simp only [registers_withIntSet, flagSet_withIntSet]
  split
  · rfl
  · split
    · rfl
    · split
      · refine Res.bind_withIntSet b (stackPop_withIntSet _ _) fun e c1 => ?_
        refine Res.bind_withIntSet b (stackPop_withIntSet _ _) fun r c2 => ?_
        rfl
      · rfl

theorem dispatchInstruction_withIntSet (inst : Nat) (c : CPU) (b : Bool) :
    dispatchInstruction inst (c.withIntSet b)
      = (dispatchInstruction inst c).mapState fun s => s.withIntSet b := by
  unfold dispatchInstruction
  simp only []
  refine Res.ite_withIntSet b _ (executeLoad_withIntSet _ _ _) ?_
  refine Res.ite_withIntSet b _ (executeStore_withIntSet _ _ _) ?_
  refine Res.ite_withIntSet b _ (executeBinaryRegOp_withIntSet _ _ _) ?_
  refine Res.ite_withIntSet b _ (executeConditional_withIntSet _ _ _) ?_
  refine Res.ite_withIntSet b _ (executePriviliged_withIntSet _ _ _) ?_
  exact Res.ite_withIntSet b _ (executeMisc_withIntSet _ _ _) rfl

theorem handleInterrupt_withIntSet (i : Interrupt) (c : CPU) (b : Bool) :
    handleInterrupt i (c.withIntSet b)
      = (handleInterrupt i c).mapState fun s => s.withIntSet b := by
  cases hH : c.handlingInterrupt with
  | true =>
    unfold handleInterrupt
    rw [if_pos (show (c.withIntSet b).handlingInterrupt = true from hH), if_pos hH]
    rfl
  | false =>
    rw [handleInterrupt_unfold i c hH,
      handleInterrupt_unfold i (c.withIntSet b) (show (c.withIntSet b).handlingInterrupt = false from hH)]
    refine Res.bind_withIntSet b
      (stackPush_withIntSet _
        ((((({ c with handlingInterrupt := true } : CPU).andFlags
          (UINT64_MAX ^^^ EF.PROTECTED_ENABLE)).andFlags
          (UINT64_MAX ^^^ EF.INTERRUPT_ENABLE)).setProt ProtectedReg.USP
            (c.registers Reg.SP)).setReg Reg.SP (c.protectedReg ProtectedReg.PSP)) b)
      fun _ c1 => ?_
    refine Res.bind_withIntSet b (stackPush_withIntSet _ c1 b) fun _ c2 => ?_
    refine Res.bind_withIntSet b (resolveAddress_withIntSet _ _ _ c2 b) fun pa c3 => ?_
    refine Res.bind_withIntSet b
      (by rw [mLoad_withIntSet]; exact Res.ofOption_withIntSet b _ c3) fun v c4 => ?_
    rfl

theorem progressClock_withIntSet (c : CPU) (b : Bool) :
    progressClock (c.withIntSet b)
      = (progressClock c).mapState fun s => s.withIntSet b := by
  unfold progressClock
  have htried : ((fetchInstruction (c.withIntSet b)).bind fun instruction c =>
        dispatchInstruction instruction c)
      = ((fetchInstruction c).bind fun instruction c =>
        dispatchInstruction instruction c).mapState fun s => s.withIntSet b :=
    Res.bind_withIntSet b (fetchInstruction_withIntSet _ _)
      fun w c1 => dispatchInstruction_withIntSet _ _ _
  simp only []
  rw [htried]
  generalize ((fetchInstruction c).bind fun instruction c =>
        dispatchInstruction instruction c) = tried
  refine Res.bind_withIntSet b ?_ fun _ c1 => ?_
  · cases tried with
    | ok a s => rfl
    | interrupt i s => exact handleInterrupt_withIntSet _ _ _
    | doubleFault s => rfl
    | undefined => rfl
  · show Res.ok () _ = Res.ok () _
    by_cases h : c1.nipSet = true
    · simp only [CPU.withIntSet, h, if_true]
      rfl
    · simp only [CPU.withIntSet, h, if_false]
      rfl

/-- Observing the state of a mapped outcome is observing the mapped state. -/
theorem Res.state?_mapState {α β : Type} (f : CPU → CPU) (g : CPU → β) (r : Res α) :
    (r.mapState f).state?.map g = r.state?.map fun s => g (f s) := by
  cases r <;> rfl

/-- C22, evaluated on the code: `hwPendingCpu` starts a tick with `intSet`
true (the field `cpu.hpp` documents as "Interrupt requested"),
`INTERRUPT_ENABLE` set and `handlingInterrupt` false; `progressClock` executes
the instruction at address 0 (`MOV Z, Z+0x100`), commits `ip = 4` and returns
with `handlingInterrupt` still false, `INTERRUPT_ENABLE` still set and `intSet`
still true: the requested interrupt was not serviced.  The tick from the same
state with `intSet` false returns the same observations. -/
theorem progressClock_pending_not_serviced :
    hwPendingCpu.intSet = true ∧
    hwPendingCpu.flagSet EF.INTERRUPT_ENABLE = true ∧
    hwPendingCpu.handlingInterrupt = false ∧
    (progressClock hwPendingCpu).state?.map
        (fun s => (s.handlingInterrupt, s.flagSet EF.PROTECTED_ENABLE,
          s.flagSet EF.INTERRUPT_ENABLE, s.intSet, s.ip))
      = some (false, false, true, true, 4) ∧
    (progressClock hwPendingCpu).raised? = none ∧
    (progressClock (hwPendingCpu.withIntSet false)).state?.map
        (fun s => (s.handlingInterrupt, s.flagSet EF.PROTECTED_ENABLE,
          s.flagSet EF.INTERRUPT_ENABLE, s.ip))
      = some (false, false, true, 4) := by
  decide

/-- The extent of the missing read of `intSet` in `CPU::progressClock`: for
every state and every value `b`, the tick started with `intSet := b` has the
outcome of the tick started from the original state, with `intSet := b`
written into the state it carries; hence `handlingInterrupt`,
`PROTECTED_ENABLE` and `INTERRUPT_ENABLE` at the end of the tick are the same
whether an interrupt was requested or not. -/
theorem progressClock_ignores_intSet (c : CPU) (b : Bool) :
    progressClock (c.withIntSet b)
      = (progressClock c).mapState (fun s => s.withIntSet b) ∧
    (progressClock (c.withIntSet true)).state?.map
        (fun s => (s.handlingInterrupt, s.flagSet EF.PROTECTED_ENABLE,
          s.flagSet EF.INTERRUPT_ENABLE))
      = (progressClock (c.withIntSet false)).state?.map
        (fun s => (s.handlingInterrupt, s.flagSet EF.PROTECTED_ENABLE,
          s.flagSet EF.INTERRUPT_ENABLE)) := by
  refine ⟨progressClock_withIntSet c b, ?_⟩
  rw [progressClock_withIntSet c true, progressClock_withIntSet c false,
    Res.state?_mapState, Res.state?_mapState]
  rfl

/-- C23: for every state with `PAGING_ENABLE` set in which the 4 bytes at
`RPT + root_index` are inside memory, every address and every write/jump flag,
`resolveAddress` raises `PAGE_FAULT` with info `(0x1 << 32) | a` (`a` the
address as a 32-bit value), leaves the state as it was and returns no physical
address; the entry produced by `mLoad` and truncated to 32 bits has its low 8
bits equal to 0. -/
theorem resolveAddress_never_translates (addr : Nat) (write jump : Bool) (c : CPU)
    (hp : c.flagSet EF.PAGING_ENABLE = true)
    (hin : ∀ j, j < 4 →
      ((c.protectedReg ProtectedReg.RPT + ((addr % 2 ^ 32 &&& 0xFFC00000) >>> 22) % 2 ^ 16)
        % 2 ^ 64 % 2 ^ 32 + j) % 2 ^ 32 < c.memSize) :
    resolveAddress addr write jump c
      = .interrupt ⟨IntCode.PAGE_FAULT, (0x1 <<< 32) ||| (addr % 2 ^ 32)⟩ c ∧
    (resolveAddress addr write jump c).value? = none ∧
    ∃ v, mLoad c ((c.protectedReg ProtectedReg.RPT
        + ((addr % 2 ^ 32 &&& 0xFFC00000) >>> 22) % 2 ^ 16) % 2 ^ 64) 4 = some v ∧
      (v % 2 ^ 32) % 2 ^ 8 = 0 := by
  obtain ⟨v, hv⟩ := mLoad_total c _ 4 hin
  have h := resolveAddress_paging_on addr write jump c v hp hv
  have hmask : addr % 2 ^ 32 &&& 0xFFFFFFFF = addr % 2 ^ 32 :=
    Nat.and_pow_two_sub_one_of_lt_two_pow (n := 32) (Nat.mod_lt _ (by decide))
  have hlow := mLoad_low_byte_zero c _ 4 v hv
  refine ⟨?_, ?_, v, hv, ?_⟩
  · rw [h, hmask, Nat.or_comm]
    rfl
  · rw [h]; rfl
  · omega

/-- C23 on `pagedCpu` and a write to `0xDEADBEEF`: the root entry bytes at
`0x137A..0x137D` are inside the 0x4000-byte memory and the fault info is
`(0x1 << 32) | 0xDEADBEEF`. -/
theorem resolveAddress_never_translates_witness :
    pagedCpu.flagSet EF.PAGING_ENABLE = true ∧
    resolveAddress 0xDEADBEEF true false pagedCpu
      = .interrupt ⟨IntCode.PAGE_FAULT, 0x1DEADBEEF⟩ pagedCpu :=
  ⟨by decide,
    (resolveAddress_never_translates 0xDEADBEEF true false pagedCpu (by decide)
      (by decide)).1⟩

end IdealVM
